import Mathlib

/-!
# pchmatexport: extraction of a system matrix from a PCH file

A shallow embedding of `src/pchmatexport.h` (namespace `PCH`): the functions
`dofs_before`, `build_dofmap` and `read_matrix`, together with the parts of the
C++ standard library they call (`std::getline`, `operator>>` on a string
stream, `std::stoi`, `std::stod`, `std::map`).

Conventions of the embedding.
* A file is its content, a `String`; a line and a token are lists of characters.
* `size_t` is a natural number below `2 ^ 64`; every `size_t` addition and
  subtraction of the source is taken modulo `2 ^ 64`.
* `std::map<size_t, size_t>` is the list of its entries in iteration order
  (ascending key order).
* A C++ exception and undefined behaviour are results of type `Error`.
* Allocation of the matrix storage is assumed to succeed.
-/

namespace PCH

/-! ## Errors -/

/-- Abnormal outcomes of the C++ code: the two exceptions thrown by `std::stoi`
and `std::stod`, and undefined behaviour (`back()` of an empty vector,
`rbegin()` of an empty map, a matrix access outside the matrix). -/
inductive Error where
  | invalid_argument
  | out_of_range
  | undefined_behaviour
  deriving DecidableEq, Repr

deriving instance DecidableEq for Except

/-- Strings of the program: sequences of characters. -/
abbrev Str := List Char

/-- The modulus of `size_t` arithmetic. -/
def SIZE_MOD : Nat := 2 ^ 64

/-- Conversion of an `int` to `size_t` (as in `size_t nodeID = std::stoi(..)`). -/
def toSizeT (v : Int) : Nat := (v % (2 ^ 64 : Int)).toNat

/-! ## Tokens of a line -/

/-- The characters `std::isspace` accepts in the classic locale. -/
def isspace (c : Char) : Bool :=
  c = ' ' || c = '\t' || c = '\n' || c = '\x0b' || c = '\x0c' || c = '\r'

/-- Splitting of a line into its whitespace-separated tokens; `cur` holds the
characters of the token being read, in reverse. -/
def tokensAux : Str → Str → List Str
  | [], cur => if cur = [] then [] else [cur.reverse]
  | c :: cs, cur =>
    if isspace c then
      (if cur = [] then tokensAux cs [] else cur.reverse :: tokensAux cs [])
    else tokensAux cs (c :: cur)

/-- The successive results of `iss >> token` on a string stream over `line`. -/
def tokens (line : Str) : List Str := tokensAux line []

/-- The effect of the `k`-th extraction `iss >> var` of a line (`k` counted from
zero): the `k`-th token when there is one; otherwise the extraction fails and
`var` keeps the value `old` it had. -/
def extract (toks : List Str) (k : Nat) (old : Str) : Str :=
  (toks.get? k).getD old

/-! ## `std::stoi` -/

/-- Value of a sequence of decimal digits. -/
def digitsValue (ds : Str) : Nat :=
  ds.foldl (fun acc c => 10 * acc + (c.toNat - 48)) 0

/-- The optional sign at the head of a number: whether it is `-`, and the
characters after the sign. -/
def splitSign (s : Str) : Bool × Str :=
  match s with
  | '-' :: t => (true, t)
  | '+' :: t => (false, t)
  | _ => (false, s)

/-- Model of `std::stoi(s)` (base 10): leading whitespace is skipped, an optional
sign is read, then the longest run of decimal digits; characters after it are
ignored. No digit: `std::invalid_argument`. A value outside the range of `int`:
`std::out_of_range`. -/
def stoi (s : Str) : Except Error Int :=
  let signed := splitSign (s.dropWhile isspace)
  let ds := signed.2.takeWhile Char.isDigit
  if ds = [] then .error .invalid_argument
  else
    let v : Int := if signed.1 then -(digitsValue ds : Int) else (digitsValue ds : Int)
    if v < -(2 ^ 31 : Int) ∨ (2 ^ 31 : Int) ≤ v then .error .out_of_range
    else .ok v

/-! ## The DOF table: `std::map<size_t, size_t>` -/

/-- The entries of a `std::map<size_t, size_t>` in iteration order. -/
abbrev DofMap := List (Nat × Nat)

namespace DofMap

/-- Iteration order of the map: keys strictly ascending. -/
def Ordered (m : DofMap) : Prop := m.Pairwise (fun a b => a.1 < b.1)

instance (m : DofMap) : Decidable (Ordered m) := by
  unfold Ordered; infer_instance

/-- The keys of the map, in iteration order. -/
def keys (m : DofMap) : List Nat := m.map Prod.fst

/-- Value stored for a key (`find`). -/
def lookup (k : Nat) : DofMap → Option Nat
  | [] => none
  | (k', v') :: rest => if k' = k then some v' else lookup k rest

/-- Model of `dofmap.insert(std::pair(k, v))`: adds the entry when the key is
absent and does nothing when it is present. -/
def insert (k v : Nat) : DofMap → DofMap
  | [] => [(k, v)]
  | (k', v') :: rest =>
    if k < k' then (k, v) :: (k', v') :: rest
    else if k = k' then (k', v') :: rest
    else (k', v') :: insert k v rest

/-- Model of `dofmap[k] = v`: adds the entry or overwrites the stored value. -/
def assign (k v : Nat) : DofMap → DofMap
  | [] => [(k, v)]
  | (k', v') :: rest =>
    if k < k' then (k, v) :: (k', v') :: rest
    else if k = k' then (k, v) :: rest
    else (k', v') :: assign k v rest

/-- Sum of all DOF counts of the table, as a natural number. -/
def total (m : DofMap) : Nat := (m.map Prod.snd).sum

/-- Sum of the DOF counts of the entries whose key is strictly below `nodeID`. -/
def totalBelow (nodeID : Nat) (m : DofMap) : Nat :=
  ((m.filter (fun e => decide (e.1 < nodeID))).map Prod.snd).sum

end DofMap

/-! ## `dofs_before` -/

/-- The loop of `dofs_before`: `dofs` is the running sum; the iteration stops at
the first entry whose key is `nodeID`. -/
def dofs_before_loop (nodeID : Nat) : DofMap → Nat → Nat
  | [], dofs => dofs
  | (k, v) :: rest, dofs =>
    if k = nodeID then dofs else dofs_before_loop nodeID rest ((dofs + v) % SIZE_MOD)

/-- Model of `dofs_before(nodeID, dofmap)`. -/
def dofs_before (nodeID : Nat) (dofmap : DofMap) : Nat :=
  dofs_before_loop nodeID dofmap 0

/-! ## Reading lines: `std::getline` -/

/-- Cuts the content of a file at its newline characters: the lines that end
with a newline and the characters left after the last newline; `cur` holds the
characters of the line being read, in reverse. -/
def splitLines : Str → Str → List Str × Str
  | [], cur => ([], cur.reverse)
  | c :: cs, cur =>
    if c = '\n' then (cur.reverse :: (splitLines cs []).1, (splitLines cs []).2)
    else splitLines cs (c :: cur)

/-- The lines handled by a loop `while (std::getline(ifs, lineRaw))`: a last
line without newline is read as well, since `getline` then extracts characters
and only sets `eofbit`. -/
def getlines (content : Str) : List Str :=
  (splitLines content []).1 ++
    (if (splitLines content []).2 = [] then [] else [(splitLines content []).2])

/-- The lines handled by the loop of `read_matrix`,
`std::getline(ifs, lineRaw); if (ifs.eof()) break;`: a line is handled only
when `getline` found its newline before the end of the file. -/
def getlines_eof (content : Str) : List Str :=
  (splitLines content []).1

/-! ## `build_dofmap` -/

/-- Outcome of one iteration of a scanning loop: go on with the next line
(`continue` or the end of the body) or leave the loop (`break`). -/
inductive Loop (σ : Type) where
  | next (s : σ)
  | done (s : σ)
  deriving DecidableEq, Repr

/-- Local state of `build_dofmap` in its first loop: the table and `numDofs`
(`none` while the variable is not initialised). -/
structure Build where
  dofmap : DofMap
  numDofs : Option Nat
  deriving DecidableEq, Repr

/-- Body of the first loop of `build_dofmap` (source lines 84-109) on one line. -/
def phase1_step (dofmap : DofMap) (lineRaw : Str) : Except Error (Loop Build) :=
  let toks := tokens lineRaw
  let lineToken := extract toks 0 []
  if lineToken = "SPOINT".toList then
    match stoi (extract toks 1 []) with
    | .error e => .error e
    | .ok modeID => .ok (.next ⟨dofmap.insert (toSizeT modeID) 1, none⟩)
  else if lineToken = "DMIG".toList then
    match toks.tail.getLast? with
    | none => .error .undefined_behaviour
    | some last =>
      match stoi last with
      | .error e => .error e
      | .ok n => .ok (.done ⟨dofmap, some (toSizeT n)⟩)
  else .ok (.next ⟨dofmap, none⟩)

/-- The first loop of `build_dofmap`: returns the state at the end of the loop
and the lines not yet read. -/
def phase1 : List Str → DofMap → Except Error (Build × List Str)
  | [], dofmap => .ok (⟨dofmap, none⟩, [])
  | lineRaw :: rest, dofmap =>
    match phase1_step dofmap lineRaw with
    | .error e => .error e
    | .ok (.next b) => phase1 rest b.dofmap
    | .ok (.done b) => .ok (b, rest)

/-- Body of the second loop of `build_dofmap` (source lines 113-134) on one line. -/
def phase2_step (dofmap : DofMap) (lineRaw : Str) : Except Error (Loop DofMap) :=
  let toks := tokens lineRaw
  let lineToken := extract toks 0 []
  if lineToken = "DMIG".toList then .ok (.done dofmap)
  else if lineToken ≠ "DMIG*".toList then .ok (.next dofmap)
  else
    let nodeIDStr := extract toks 2 []
    let nodeDofStr := extract toks 3 []
    if nodeDofStr = "0".toList then .ok (.next dofmap)
    else
      match stoi nodeIDStr with
      | .error e => .error e
      | .ok nodeID =>
        match stoi nodeDofStr with
        | .error e => .error e
        | .ok nodeDof => .ok (.next (dofmap.assign (toSizeT nodeID) (toSizeT nodeDof)))

/-- The second loop of `build_dofmap`. -/
def phase2 : List Str → DofMap → Except Error DofMap
  | [], dofmap => .ok dofmap
  | lineRaw :: rest, dofmap =>
    match phase2_step dofmap lineRaw with
    | .error e => .error e
    | .ok (.next d) => phase2 rest d
    | .ok (.done d) => .ok d

/-- Both loops of `build_dofmap` on the lines of the file. -/
def build_lines (ls : List Str) : Except Error DofMap :=
  match phase1 ls [] with
  | .error e => .error e
  | .ok (b, rest) => phase2 rest b.dofmap

/-- Model of `build_dofmap(pchAddress)`, on the content of the file. -/
def build_dofmap (pch : String) : Except Error DofMap :=
  build_lines (getlines pch.data)

/-! ## Matrix entries: `double` and `std::stod` -/

/-- Values of type `double`: a finite value is its sign and its magnitude (a
rational number that binary64 represents exactly); the payload and the sign of
a NaN are not kept. Equality is identity of the stored value. -/
inductive Double where
  | finite (negative : Bool) (magnitude : ℚ)
  | infinity (negative : Bool)
  | nan
  deriving DecidableEq

/-- The value `0.0` written by `setZero()`. -/
def Double.zero : Double := .finite false 0

/-- Result of rounding a positive rational to binary64 precision: the value is
`mant * 2 ^ exp`; `exact` tells that no rounding error occurred. -/
structure Rounded where
  mant : Nat
  exp : Int
  exact : Bool
  deriving DecidableEq, Repr

/-- Number of binary digits of `n`, computed with `fuel` halvings. -/
def bitLength : Nat → Nat → Nat
  | 0, _ => 0
  | fuel + 1, n => if n = 0 then 0 else bitLength fuel (n / 2) + 1

/-- The integer `e` with `2 ^ e ≤ num / den < 2 ^ (e + 1)`, for positive
`num` and `den`. -/
def floorLog2 (num den : Nat) : Int :=
  let e0 : Int := (bitLength num num : Int) - (bitLength den den : Int)
  let below : Bool :=
    if 0 ≤ e0 then decide (num < 2 ^ e0.toNat * den) else decide (num * 2 ^ (-e0).toNat < den)
  if below then e0 - 1 else e0

/-- Rounding of the positive rational `num / den` to the nearest multiple of
`2 ^ p`, ties to even: the multiple is `mant * 2 ^ p`. -/
def roundAt (num den : Nat) (p : Int) : Rounded :=
  let n1 := if 0 ≤ p then num else num * 2 ^ (-p).toNat
  let d1 := if 0 ≤ p then den * 2 ^ p.toNat else den
  let q := n1 / d1
  let r := n1 % d1
  let up : Bool := decide (d1 < 2 * r) || (decide (2 * r = d1) && decide (q % 2 = 1))
  ⟨if up then q + 1 else q, p, decide (r = 0)⟩

/-- Rounding of the positive rational `num / den` to the nearest value with a
53-bit significand and exponent at least `-1074`, ties to even. -/
def roundBinary64 (num den : Nat) : Rounded :=
  roundAt num den (max (floorLog2 num den - 52) (-1074))

/-- Whether `strtod` counts the positive rational `num / den` as tiny: it is
below the smallest normal number `2 ^ (-1022)`, unless it lies in the binade
just below that number and rounding it to 53 bits with an unbounded exponent
reaches `2 ^ (-1022)` (tininess is detected after rounding, as glibc does on
x86-64). -/
def isTiny (num den : Nat) : Bool :=
  decide (floorLog2 num den < -1022) &&
    !(decide (floorLog2 num den = -1023) &&
      decide ((roundAt num den (-1075)).mant = 2 ^ 53))

/-- Value of a hexadecimal digit. -/
def hexDigitValue (c : Char) : Option Nat :=
  if c.isDigit then some (c.toNat - 48)
  else if 'a'.toNat ≤ c.toNat ∧ c.toNat ≤ 'f'.toNat then some (c.toNat - 87)
  else if 'A'.toNat ≤ c.toNat ∧ c.toNat ≤ 'F'.toNat then some (c.toNat - 55)
  else none

/-- Value of a sequence of hexadecimal digits. -/
def hexValue (ds : Str) : Nat :=
  ds.foldl (fun acc c => 16 * acc + (hexDigitValue c).getD 0) 0

/-- Whether `s` starts with the lower-case word `w`, letter case ignored. -/
def startsWithCI (w : Str) (s : Str) : Bool :=
  (s.take w.length).map Char.toLower = w

/-- The exponent part at the head of `s`: a marker character, an optional sign
and at least one decimal digit; `0` when `s` does not start with one. -/
def parseExponent (marker : Char → Bool) (s : Str) : Int :=
  match s with
  | [] => 0
  | c :: t =>
    if marker c then
      let signed := splitSign t
      let ds := signed.2.takeWhile Char.isDigit
      if ds = [] then 0
      else if signed.1 then -(digitsValue ds : Int) else (digitsValue ds : Int)
    else 0

/-- The digits before and after an optional point, for the digit test `isDig`,
and the characters after them. -/
def parseMantissa (isDig : Char → Bool) (s : Str) : Str × Str × Str :=
  let ip := s.takeWhile isDig
  let r1 := s.dropWhile isDig
  match r1 with
  | '.' :: t => (ip, t.takeWhile isDig, t.dropWhile isDig)
  | _ => (ip, [], r1)

/-- A number as `strtod` reads it: significand, base of the exponent, exponent. -/
structure Literal where
  mantissa : Nat
  base : Nat
  exponent : Int
  deriving DecidableEq, Repr

/-- The decimal floating-point literal at the head of `s`, if any. -/
def parseDecimal (s : Str) : Option Literal :=
  match parseMantissa Char.isDigit s with
  | (ip, fp, rest) =>
    if ip = [] ∧ fp = [] then none
    else some ⟨digitsValue (ip ++ fp), 10,
      parseExponent (fun c => c = 'e' || c = 'E') rest - (fp.length : Int)⟩

/-- The hexadecimal floating-point literal at the head of `s` (after `0x`), if any. -/
def parseHex (s : Str) : Option Literal :=
  match parseMantissa (fun c => (hexDigitValue c).isSome) s with
  | (ip, fp, rest) =>
    if ip = [] ∧ fp = [] then none
    else some ⟨hexValue (ip ++ fp), 2,
      parseExponent (fun c => c = 'p' || c = 'P') rest - 4 * (fp.length : Int)⟩

/-- The numeric literal at the head of `s`: hexadecimal after `0x` or `0X` when
hexadecimal digits follow, decimal otherwise. -/
def parseLiteral (s : Str) : Option Literal :=
  match s with
  | '0' :: x :: t =>
    if x = 'x' ∨ x = 'X' then
      match parseHex t with
      | some l => some l
      | none => parseDecimal s
    else parseDecimal s
  | _ => parseDecimal s

/-- The `double` that `strtod` returns for a literal with sign `negative`:
the literal correctly rounded to binary64, ties to even. A result out of range
makes `std::stod` throw `std::out_of_range`: an overflow, or an underflow, for
which `strtod` sets `ERANGE` when the value is tiny and the result is not
exact (also when the result is rounded up to the smallest normal number). -/
def toDouble (negative : Bool) (l : Literal) : Except Error Double :=
  if l.mantissa = 0 then .ok (.finite negative 0)
  else
    let num := if 0 ≤ l.exponent then l.mantissa * l.base ^ l.exponent.toNat else l.mantissa
    let den := if 0 ≤ l.exponent then 1 else l.base ^ (-l.exponent).toNat
    let r := roundBinary64 num den
    if 971 < r.exp ∨ (r.exp = 971 ∧ 2 ^ 53 ≤ r.mant) then .error .out_of_range
    else if isTiny num den = true ∧ r.exact = false then .error .out_of_range
    else .ok (.finite negative ((r.mant : ℚ) * (2 : ℚ) ^ r.exp))

/-- Model of `std::stod(s)`: `strtod` on the longest prefix that is a number
(leading whitespace skipped; characters after the number ignored). No number:
`std::invalid_argument`. -/
def stod (s : Str) : Except Error Double :=
  let signed := splitSign (s.dropWhile isspace)
  if startsWithCI "inf".toList signed.2 then .ok (.infinity signed.1)
  else if startsWithCI "nan".toList signed.2 then .ok .nan
  else
    match parseLiteral signed.2 with
    | none => .error .invalid_argument
    | some l => toDouble signed.1 l

/-- The loop `for (auto& c : matrixElemStr) if (c == 'D') c = 'E';`. -/
def replaceD (s : Str) : Str :=
  s.map (fun c => if c = 'D' then 'E' else c)

/-! ## The dense matrix: `Eigen::MatrixXd` -/

/-- A dense matrix of doubles: its sizes and its coefficients. -/
structure Matrix where
  rows : Nat
  cols : Nat
  coeff : Nat → Nat → Double

/-- The matrix after `Eigen::MatrixXd M(n, m); M.setZero();`. -/
def Matrix.zero (n m : Nat) : Matrix := ⟨n, m, fun _ _ => Double.zero⟩

/-- The assignment `M(i, j) = v`; an access outside the matrix is undefined
behaviour. -/
def Matrix.set (M : Matrix) (i j : Nat) (v : Double) : Except Error Matrix :=
  if i < M.rows ∧ j < M.cols then
    .ok ⟨M.rows, M.cols, fun a b => if a = i ∧ b = j then v else M.coeff a b⟩
  else .error .undefined_behaviour

/-- The coefficient `M(i, j)` of a position inside the matrix. -/
def Matrix.get? (M : Matrix) (i j : Nat) : Option Double :=
  if i < M.rows ∧ j < M.cols then some (M.coeff i j) else none

/-! ## `read_matrix` -/

/-- The selector `enum class MATRIX`. -/
inductive MATRIX where
  | MASS
  | STIF
  deriving DecidableEq, Repr

/-- The identifier compared with the matrix-type token of the file. -/
def userMatrixType (matrixType : MATRIX) : Str :=
  match matrixType with
  | .MASS => "MAAX".toList
  | .STIF => "KAAX".toList

/-- The `size_t` expression `dofsBefore + nodeDof - 1`. -/
def globalIndex (dofsBefore nodeDof : Nat) : Nat :=
  (dofsBefore + nodeDof + (SIZE_MOD - 1)) % SIZE_MOD

/-- The variables of `read_matrix` that live across the lines of its loop. -/
structure Scan where
  fileMatrixType : Str
  nodeIDStr : Str
  nodeDofStr : Str
  globalRow : Nat
  doProcess : Bool
  sysMatrix : Matrix

/-- Body of the loop of `read_matrix` (source lines 196-240) on one line. -/
def read_step (userType : Str) (dofmap : DofMap) (st : Scan) (lineRaw : Str) :
    Except Error Scan :=
  let toks := tokens lineRaw
  let lineToken := extract toks 0 []
  if lineToken = "DMIG*".toList then
    let fileMatrixType := extract toks 1 st.fileMatrixType
    let nodeIDStr := extract toks 2 st.nodeIDStr
    let nodeDofStr := extract toks 3 st.nodeDofStr
    if fileMatrixType ≠ userType then
      .ok ⟨fileMatrixType, nodeIDStr, nodeDofStr, st.globalRow, false, st.sysMatrix⟩
    else
      match stoi nodeIDStr with
      | .error e => .error e
      | .ok nodeID =>
        match stoi nodeDofStr with
        | .error e => .error e
        | .ok nodeDof =>
          .ok ⟨fileMatrixType, nodeIDStr, nodeDofStr,
            globalIndex (dofs_before (toSizeT nodeID) dofmap) (toSizeT nodeDof),
            true, st.sysMatrix⟩
  else if lineToken = "*".toList ∧ st.doProcess = true then
    let nodeIDStr := extract toks 1 st.nodeIDStr
    let nodeDofStr := extract toks 2 st.nodeDofStr
    let matrixElemStr := replaceD (extract toks 3 [])
    match stoi nodeIDStr with
    | .error e => .error e
    | .ok nodeID =>
      match stoi nodeDofStr with
      | .error e => .error e
      | .ok nodeDof =>
        match stod matrixElemStr with
        | .error e => .error e
        | .ok matrixElem =>
          let globalCol := globalIndex (dofs_before (toSizeT nodeID) dofmap) (toSizeT nodeDof)
          match st.sysMatrix.set st.globalRow globalCol matrixElem with
          | .error e => .error e
          | .ok m1 =>
            match m1.set globalCol st.globalRow matrixElem with
            | .error e => .error e
            | .ok m2 => .ok ⟨st.fileMatrixType, nodeIDStr, nodeDofStr, st.globalRow, true, m2⟩
  else .ok st

/-- The loop of `read_matrix` over the lines it handles. -/
def read_loop (userType : Str) (dofmap : DofMap) : List Str → Scan → Except Error Scan
  | [], st => .ok st
  | lineRaw :: rest, st =>
    match read_step userType dofmap st lineRaw with
    | .error e => .error e
    | .ok st1 => read_loop userType dofmap rest st1

/-- The variables of `read_matrix` before its loop, for a zero matrix of
dimension `numDofs`. -/
def Scan.init (numDofs : Nat) : Scan :=
  ⟨[], [], [], 0, false, Matrix.zero numDofs numDofs⟩

/-- The value `dofs_before(dofmap.rbegin()->first, dofmap) + dofmap.rbegin()->second`;
`rbegin()` of an empty map is undefined behaviour. -/
def totalDofs (dofmap : DofMap) : Except Error Nat :=
  match dofmap.getLast? with
  | none => .error .undefined_behaviour
  | some last => .ok ((dofs_before last.1 dofmap + last.2) % SIZE_MOD)

/-- Model of `read_matrix(pchAddress, matrixType)`, on the content of the file. -/
def read_matrix (pch : String) (matrixType : MATRIX) : Except Error Matrix :=
  match build_dofmap pch with
  | .error e => .error e
  | .ok dofmap =>
    match totalDofs dofmap with
    | .error e => .error e
    | .ok numDofs =>
      match read_loop (userMatrixType matrixType) dofmap (getlines_eof pch.data)
          (Scan.init numDofs) with
      | .error e => .error e
      | .ok st => .ok st.sysMatrix

/-! ## Notions used to state the properties -/

/-- A line is a `DMIG*` record that carries the matrix identifier `ty`: its
first token is `DMIG*` and its second token is `ty`. -/
def carriesType (ty : Str) (line : Str) : Prop :=
  (tokens line).get? 0 = some "DMIG*".toList ∧ (tokens line).get? 1 = some ty

instance (ty line : Str) : Decidable (carriesType ty line) := by
  unfold carriesType; infer_instance

/-- The line is a bare `DMIG` line: its first token is `DMIG`. -/
def isBareDMIG (line : Str) : Bool :=
  decide (extract (tokens line) 0 [] = "DMIG".toList)

/-- The lines of phase 2: the lines strictly between the first bare `DMIG` line
and the next bare `DMIG` line (or the end of the file when there is none). -/
def phase2Lines (ls : List Str) : List Str :=
  ((ls.dropWhile (fun l => !isBareDMIG l)).tail).takeWhile (fun l => !isBareDMIG l)

/-- The DOF assignment a line carries: the node ID and the local-DOF number of a
`DMIG*` record whose local-DOF token is not `0`. -/
def assignment? (line : Str) : Option (Nat × Nat) :=
  if extract (tokens line) 0 [] = "DMIG*".toList ∧ extract (tokens line) 3 [] ≠ "0".toList then
    match stoi (extract (tokens line) 2 []), stoi (extract (tokens line) 3 []) with
    | .ok nodeID, .ok nodeDof => some (toSizeT nodeID, toSizeT nodeDof)
    | _, _ => none
  else none

/-- The local-DOF number of the last record, in line order, that assigns a DOF
count to the node `nodeID`. -/
def lastAssignment (nodeID : Nat) (ls : List Str) : Option Nat :=
  (((ls.filterMap assignment?).filter (fun e => decide (e.1 = nodeID))).getLast?).map Prod.snd

/-- The file of the end-to-end scenario: `SPOINT 82`, a `DMIG` header line ending
in `6`, the header `DMIG* KAAX 546 3`, the record `* 547 2 5.26D3` and a closing
bare `DMIG` line. -/
def scenario : String :=
  "SPOINT 82\nDMIG KAAX 0 6 1 0 6\nDMIG* KAAX 546 3\n* 547 2 5.26D3\nDMIG\n"

/-- The file of the scenario with one more line before the closing `DMIG` line:
the header `DMIG* KAAX 547 2`, which declares node 547. -/
def scenarioDeclared : String :=
  "SPOINT 82\nDMIG KAAX 0 6 1 0 6\nDMIG* KAAX 546 3\n* 547 2 5.26D3\nDMIG* KAAX 547 2\nDMIG\n"

/-- The value of the variable `numDofs` of `build_dofmap` at the end of its
first loop: the total number of DOFs read from the `DMIG` header line (`none`
when the variable was never assigned). -/
def dmig_hint (pch : String) : Option Nat :=
  match phase1 (getlines pch.data) [] with
  | .ok (b, _) => b.numDofs
  | .error _ => none

/-- A file whose `DMIG` header line declares 6 DOFs while its records give one
DOF to node 82 and three DOFs to node 546. -/
def hintFile : String :=
  "SPOINT 82\nDMIG KAAX 0 6 1 0 6\nDMIG* KAAX 546 3\n* 546 3 5.26D3\nDMIG\n"

/-- A file whose last line, a `*` record, is not terminated by a newline. -/
def unterminatedFile : String :=
  "SPOINT 5\nDMIG KAAX 0 1 1 0 1\nDMIG* KAAX 5 1\n* 5 1 5.26D3"

/-- The same file with its last line terminated by a newline. -/
def terminatedFile : String :=
  "SPOINT 5\nDMIG KAAX 0 1 1 0 1\nDMIG* KAAX 5 1\n* 5 1 5.26D3\n"

/-- The lines of phase 1: the lines before the first bare `DMIG` line. -/
def phase1Lines (ls : List Str) : List Str :=
  ls.takeWhile (fun l => !isBareDMIG l)

/-- The node a line registers in phase 1: the node ID of an `SPOINT` line. -/
def spoint? (line : Str) : Option Nat :=
  if extract (tokens line) 0 [] = "SPOINT".toList then
    match stoi (extract (tokens line) 1 []) with
    | .ok modeID => some (toSizeT modeID)
    | .error _ => none
  else none

/-- A file whose `DMIG*` records write the local-DOF number zero as `00` and `+0`. -/
def zeroDofFile : String :=
  "DMIG KAAX 0 6 1 0 6\nDMIG* KAAX 5 00\nDMIG* KAAX 6 +0\nDMIG\n"

/-- A file whose first `DMIG*` record carries the local-DOF token `-1`, stored
as the `size_t` value `2 ^ 64 - 1`. -/
def wrapFile : String :=
  "DMIG KAAX 0 6 1 0 6\nDMIG* KAAX 1 -1\nDMIG* KAAX 2 2\nDMIG\n"

/-- The table built from `wrapFile`; its DOF counts sum to `2 ^ 64 + 1`. -/
def wrapTable : DofMap := [(1, 18446744073709551615), (2, 2)]

/-- A table of positive DOF counts whose sum is `2 ^ 64 + 1`. -/
def wrapTable3 : DofMap := [(1, 18446744073709551615), (2, 1), (3, 1)]

/-- A file with records of the nodes 5, 7, 82 and 546. -/
def orderFile1 : String :=
  "SPOINT 82\nSPOINT 5\nDMIG KAAX 0 6 1 0 6\nDMIG* KAAX 546 1\nDMIG* KAAX 7 3\nDMIG* KAAX 546 2\nDMIG\n"

/-- The records of `orderFile1` in another order; the two records of node 546
keep their relative order. -/
def orderFile2 : String :=
  "SPOINT 5\nSPOINT 82\nDMIG KAAX 0 6 1 0 6\nDMIG* KAAX 7 3\nDMIG* KAAX 546 1\nDMIG* KAAX 546 2\nDMIG\n"

/-- The record a line contributes when it is read in the state `st`: for a line
whose first token is `*`, read while `doProcess` holds (the state ROW_ACTIVE),
the global row of the state, the global column
`dofs_before(colNode) + colLocalDof - 1` and the value of the line. -/
def processedRecord (dofmap : DofMap) (st : Scan) (lineRaw : Str) : Option (Nat × Nat × Double) :=
  if extract (tokens lineRaw) 0 [] = "*".toList ∧ st.doProcess = true then
    match stoi (extract (tokens lineRaw) 1 st.nodeIDStr),
      stoi (extract (tokens lineRaw) 2 st.nodeDofStr),
      stod (replaceD (extract (tokens lineRaw) 3 [])) with
    | .ok nodeID, .ok nodeDof, .ok matrixElem =>
      some (st.globalRow, globalIndex (dofs_before (toSizeT nodeID) dofmap) (toSizeT nodeDof),
        matrixElem)
    | _, _, _ => none
  else none

/-- The processed records of a scan, in file order: the states are those of the
loop of `read_matrix`. -/
def processedRecords (userType : Str) (dofmap : DofMap) :
    List Str → Scan → List (Nat × Nat × Double)
  | [], _ => []
  | lineRaw :: rest, st =>
    match read_step userType dofmap st lineRaw with
    | .error _ => []
    | .ok st1 =>
      match processedRecord dofmap st lineRaw with
      | some r => r :: processedRecords userType dofmap rest st1
      | none => processedRecords userType dofmap rest st1

/-- The record addresses the pair `(r, c)`: its global row and column are
`(r, c)` or `(c, r)`. -/
def addresses (r c : Nat) (t : Nat × Nat × Double) : Bool :=
  decide ((t.1 = r ∧ t.2.1 = c) ∨ (t.1 = c ∧ t.2.1 = r))

/-- The value of the last record that addresses the pair `(r, c)`, and
`default` when no record addresses it. -/
def lastValue (default : Double) (recs : List (Nat × Nat × Double)) (r c : Nat) : Double :=
  match (recs.filter (addresses r c)).getLast? with
  | some t => t.2.2
  | none => default

/-- Sum of the DOF counts of the entries that precede the first entry with key
`nodeID` in iteration order. -/
theorem dofs_before_loop_eq (nodeID : Nat) (m : DofMap) (acc : Nat) (hacc : acc < SIZE_MOD) :
    dofs_before_loop nodeID m acc =
      (acc + ((m.takeWhile (fun e => decide (e.1 ≠ nodeID))).map Prod.snd).sum) % SIZE_MOD := by
  induction m generalizing acc with
  | nil => simp [dofs_before_loop, Nat.mod_eq_of_lt hacc]
  | cons e rest ih =>
    obtain ⟨k, v⟩ := e
    by_cases hk : k = nodeID
    · simp [dofs_before_loop, hk, Nat.mod_eq_of_lt hacc]
    · have hpos : 0 < SIZE_MOD := by unfold SIZE_MOD; positivity
      simp only [dofs_before_loop, hk, if_false]
      rw [ih _ (Nat.mod_lt _ hpos)]
      simp [List.takeWhile_cons, hk, Nat.add_assoc]

theorem takeWhile_eq_self_of_absent (nodeID : Nat) (m : DofMap) (h : nodeID ∉ m.keys) :
    m.takeWhile (fun e => decide (e.1 ≠ nodeID)) = m := by
  rw [List.takeWhile_eq_self_iff]
  intro e he
  have : e.1 ≠ nodeID := by
    intro hc
    apply h
    unfold DofMap.keys
    exact List.mem_map.mpr ⟨e, he, hc⟩
  simpa using this

theorem takeWhile_eq_filter_of_key (nodeID : Nat) (m : DofMap) (hord : m.Ordered)
    (h : nodeID ∈ m.keys) :
    m.takeWhile (fun e => decide (e.1 ≠ nodeID)) = m.filter (fun e => decide (e.1 < nodeID)) := by
  induction m with
  | nil => simp [DofMap.keys] at h
  | cons e rest ih =>
    obtain ⟨k, v⟩ := e
    unfold DofMap.Ordered at hord
    rw [List.pairwise_cons] at hord
    obtain ⟨hhead, htail⟩ := hord
    by_cases hk : k = nodeID
    · subst hk
      have hnone : rest.filter (fun e => decide (e.1 < k)) = [] := by
        rw [List.filter_eq_nil_iff]
        intro a ha
        have := hhead a ha
        simp only [decide_eq_true_eq]
        omega
      simp [List.takeWhile_cons, List.filter_cons, hnone]
    · have hmem : nodeID ∈ DofMap.keys rest := by
        simp only [DofMap.keys, List.map_cons, List.mem_cons] at h
        rcases h with h | h
        · exact absurd h.symm hk
        · exact h
      have hlt : k < nodeID := by
        obtain ⟨a, ha, hak⟩ := List.mem_map.mp hmem
        have := hhead a ha
        simp only at this
        omega
      have ih1 := ih htail hmem
      simp only [List.takeWhile_cons, List.filter_cons, hk, hlt, ne_eq, not_false_eq_true,
        decide_True, if_true]
      exact congrArg _ ih1

/-- Claim C1. For a DOF table in ascending key order and a node ID that is a key
of the table, `dofs_before` is the sum, in `size_t` arithmetic, of the DOF counts
of exactly the entries whose key is strictly smaller than the node ID; when
that sum fits in a `size_t` it is the sum itself. -/
theorem dofs_before_of_key (table : DofMap) (nodeID : Nat) (hord : table.Ordered)
    (hkey : nodeID ∈ table.keys) :
    dofs_before nodeID table = table.totalBelow nodeID % SIZE_MOD ∧
      (table.totalBelow nodeID < SIZE_MOD → dofs_before nodeID table = table.totalBelow nodeID) := by
  have hpos : 0 < SIZE_MOD := by unfold SIZE_MOD; positivity
  have h1 : dofs_before nodeID table = table.totalBelow nodeID % SIZE_MOD := by
    unfold dofs_before DofMap.totalBelow
    rw [dofs_before_loop_eq nodeID table 0 hpos, takeWhile_eq_filter_of_key nodeID table hord hkey]
    simp
  exact ⟨h1, fun hlt => by rw [h1, Nat.mod_eq_of_lt hlt]⟩

theorem dofs_before_of_key_witness :
    dofs_before 547 [(82, 1), (546, 3), (547, 2)] = 4 % SIZE_MOD ∧
      DofMap.totalBelow 547 [(82, 1), (546, 3), (547, 2)] = 4 := by
  have h := dofs_before_of_key [(82, 1), (546, 3), (547, 2)] 547 (by decide) (by decide)
  exact ⟨h.1, by decide⟩

/-- Claim C2. For a node ID that is not a key of the table, `dofs_before` is the
sum, in `size_t` arithmetic, of all DOF counts of the table, wherever the node
ID falls in the key order; when that sum fits in a `size_t` it is the sum
itself. -/
theorem dofs_before_of_absent (table : DofMap) (nodeID : Nat) (habs : nodeID ∉ table.keys) :
    dofs_before nodeID table = table.total % SIZE_MOD ∧
      (table.total < SIZE_MOD → dofs_before nodeID table = table.total) := by
  have hpos : 0 < SIZE_MOD := by unfold SIZE_MOD; positivity
  have h1 : dofs_before nodeID table = table.total % SIZE_MOD := by
    unfold dofs_before DofMap.total
    rw [dofs_before_loop_eq nodeID table 0 hpos, takeWhile_eq_self_of_absent nodeID table habs]
    simp
  exact ⟨h1, fun hlt => by rw [h1, Nat.mod_eq_of_lt hlt]⟩

theorem dofs_before_of_absent_witness :
    (dofs_before 100 [(82, 1), (546, 3)] = 4 % SIZE_MOD ∧
      dofs_before 547 [(82, 1), (546, 3)] = 4 % SIZE_MOD) ∧
      dofs_before 7 [(82, 1), (546, 3)] = 4 := by
  refine ⟨⟨(dofs_before_of_absent [(82, 1), (546, 3)] 100 (by decide)).1,
    (dofs_before_of_absent [(82, 1), (546, 3)] 547 (by decide)).1⟩, ?_⟩
  exact (dofs_before_of_absent [(82, 1), (546, 3)] 7 (by decide)).2 (by decide)

/-! ### The table operations -/

theorem insert_of_key (k v : Nat) (m : DofMap) (hord : m.Ordered) (hk : k ∈ m.keys) :
    m.insert k v = m := by
  induction m with
  | nil => simp [DofMap.keys] at hk
  | cons e rest ih =>
    obtain ⟨k1, v1⟩ := e
    unfold DofMap.Ordered at hord
    rw [List.pairwise_cons] at hord
    obtain ⟨hhead, htail⟩ := hord
    by_cases hkk : k = k1
    · simp [DofMap.insert, hkk]
    · have hmem : k ∈ DofMap.keys rest := by
        simp only [DofMap.keys, List.map_cons, List.mem_cons] at hk
        rcases hk with h | h
        · exact absurd h hkk
        · exact h
      have hlt : ¬ k < k1 := by
        obtain ⟨a, ha, hak⟩ := List.mem_map.mp hmem
        have := hhead a ha
        simp only at this
        omega
      simp [DofMap.insert, hkk, hlt, ih htail hmem]

theorem keys_insert (k v : Nat) (m : DofMap) (x : Nat) :
    x ∈ (m.insert k v).keys ↔ x = k ∨ x ∈ m.keys := by
  induction m with
  | nil => simp [DofMap.insert, DofMap.keys]
  | cons e rest ih =>
    obtain ⟨k1, v1⟩ := e
    simp only [DofMap.keys] at ih
    by_cases h1 : k < k1
    · simp [DofMap.insert, DofMap.keys, h1]
    · by_cases h2 : k = k1
      · subst h2
        simp [DofMap.insert, DofMap.keys]
      · simp only [DofMap.insert, h1, h2, if_false, DofMap.keys, List.map_cons, List.mem_cons, ih]
        tauto

theorem keys_assign (k v : Nat) (m : DofMap) (x : Nat) :
    x ∈ (m.assign k v).keys ↔ x = k ∨ x ∈ m.keys := by
  induction m with
  | nil => simp [DofMap.assign, DofMap.keys]
  | cons e rest ih =>
    obtain ⟨k1, v1⟩ := e
    simp only [DofMap.keys] at ih
    by_cases h1 : k < k1
    · simp [DofMap.assign, DofMap.keys, h1]
    · by_cases h2 : k = k1
      · subst h2
        simp [DofMap.assign, DofMap.keys]
      · simp only [DofMap.assign, h1, h2, if_false, DofMap.keys, List.map_cons, List.mem_cons, ih]
        tauto

theorem ordered_cons_iff (e : Nat × Nat) (m : DofMap) :
    DofMap.Ordered (e :: m) ↔ (∀ x ∈ m.keys, e.1 < x) ∧ m.Ordered := by
  unfold DofMap.Ordered DofMap.keys
  rw [List.pairwise_cons]
  constructor
  · rintro ⟨h1, h2⟩
    refine ⟨?_, h2⟩
    intro x hx
    obtain ⟨a, ha, hax⟩ := List.mem_map.mp hx
    exact hax ▸ h1 a ha
  · rintro ⟨h1, h2⟩
    exact ⟨fun a ha => h1 a.1 (List.mem_map.mpr ⟨a, ha, rfl⟩), h2⟩

theorem insert_ordered (k v : Nat) (m : DofMap) (hord : m.Ordered) : (m.insert k v).Ordered := by
  induction m with
  | nil => simp [DofMap.insert, DofMap.Ordered]
  | cons e rest ih =>
    obtain ⟨k1, v1⟩ := e
    have hc := (ordered_cons_iff (k1, v1) rest).mp hord
    by_cases h1 : k < k1
    · simp only [DofMap.insert, h1, if_true]
      rw [ordered_cons_iff]
      refine ⟨?_, hord⟩
      intro x hx
      simp only [DofMap.keys, List.map_cons, List.mem_cons] at hx
      rcases hx with hx | hx
      · simpa [hx] using h1
      · have := hc.1 x hx
        simp only at this ⊢
        omega
    · by_cases h2 : k = k1
      · simpa [DofMap.insert, h2] using hord
      · simp only [DofMap.insert, h1, h2, if_false]
        rw [ordered_cons_iff]
        refine ⟨?_, ih hc.2⟩
        intro x hx
        rcases (keys_insert k v rest x).mp hx with hx | hx
        · simp only [hx]
          omega
        · exact hc.1 x hx

theorem assign_ordered (k v : Nat) (m : DofMap) (hord : m.Ordered) : (m.assign k v).Ordered := by
  induction m with
  | nil => simp [DofMap.assign, DofMap.Ordered]
  | cons e rest ih =>
    obtain ⟨k1, v1⟩ := e
    have hc := (ordered_cons_iff (k1, v1) rest).mp hord
    by_cases h1 : k < k1
    · simp only [DofMap.assign, h1, if_true]
      rw [ordered_cons_iff]
      refine ⟨?_, hord⟩
      intro x hx
      simp only [DofMap.keys, List.map_cons, List.mem_cons] at hx
      rcases hx with hx | hx
      · simpa [hx] using h1
      · have := hc.1 x hx
        simp only at this ⊢
        omega
    · by_cases h2 : k = k1
      · simp only [DofMap.assign, h2, lt_irrefl, if_false, if_true]
        rw [ordered_cons_iff]
        exact ⟨hc.1, hc.2⟩
      · simp only [DofMap.assign, h1, h2, if_false]
        rw [ordered_cons_iff]
        refine ⟨?_, ih hc.2⟩
        intro x hx
        rcases (keys_assign k v rest x).mp hx with hx | hx
        · simp only [hx]
          omega
        · exact hc.1 x hx

theorem lookup_insert_self (k v : Nat) (m : DofMap) (hk : k ∉ m.keys) :
    (m.insert k v).lookup k = some v := by
  induction m with
  | nil => simp [DofMap.insert, DofMap.lookup]
  | cons e rest ih =>
    obtain ⟨k1, v1⟩ := e
    simp only [DofMap.keys, List.map_cons, List.mem_cons, not_or] at hk
    by_cases h1 : k < k1
    · simp [DofMap.insert, DofMap.lookup, h1]
    · have h2 : ¬ k = k1 := hk.1
      have h3 : ¬ k1 = k := fun h => h2 h.symm
      simp only [DofMap.insert, h1, h2, if_false, DofMap.lookup, h3]
      exact ih hk.2

theorem lookup_insert_other (k v x : Nat) (m : DofMap) (hx : x ≠ k) :
    (m.insert k v).lookup x = m.lookup x := by
  induction m with
  | nil => simp [DofMap.insert, DofMap.lookup, Ne.symm hx]
  | cons e rest ih =>
    obtain ⟨k1, v1⟩ := e
    by_cases h1 : k < k1
    · simp [DofMap.insert, DofMap.lookup, h1, Ne.symm hx]
    · by_cases h2 : k = k1
      · simp [DofMap.insert, h2]
      · simp only [DofMap.insert, h1, h2, if_false, DofMap.lookup, ih]

theorem lookup_assign_self (k v : Nat) (m : DofMap) : (m.assign k v).lookup k = some v := by
  induction m with
  | nil => simp [DofMap.assign, DofMap.lookup]
  | cons e rest ih =>
    obtain ⟨k1, v1⟩ := e
    by_cases h1 : k < k1
    · simp [DofMap.assign, DofMap.lookup, h1]
    · by_cases h2 : k = k1
      · simp [DofMap.assign, DofMap.lookup, h2]
      · have h3 : ¬ k1 = k := fun h => h2 h.symm
        simp only [DofMap.assign, h1, h2, if_false, DofMap.lookup, h3, ih]

theorem lookup_assign_other (k v x : Nat) (m : DofMap) (hx : x ≠ k) :
    (m.assign k v).lookup x = m.lookup x := by
  induction m with
  | nil => simp [DofMap.assign, DofMap.lookup, Ne.symm hx]
  | cons e rest ih =>
    obtain ⟨k1, v1⟩ := e
    by_cases h1 : k < k1
    · simp [DofMap.assign, DofMap.lookup, h1, Ne.symm hx]
    · by_cases h2 : k = k1
      · subst h2
        simp [DofMap.assign, DofMap.lookup, Ne.symm hx]
      · simp only [DofMap.assign, h1, h2, if_false, DofMap.lookup, ih]

/-- Claim C7. In the second loop of `build_dofmap`, a `DMIG*` line whose
local-DOF token is exactly `0` leaves the table as it was, whatever its
matrix-type and node-ID tokens are, and raises no error: the body of the loop
goes on to the next line with the same table. -/
theorem phase2_step_zero_dof (dofmap : DofMap) (lineRaw : Str) (matrixType nodeIDStr : Str)
    (more : List Str)
    (hline : tokens lineRaw = "DMIG*".toList :: matrixType :: nodeIDStr :: "0".toList :: more) :
    phase2_step dofmap lineRaw = .ok (.next dofmap) ∧
      ∀ rest : List Str, phase2 (lineRaw :: rest) dofmap = phase2 rest dofmap := by
  have h : phase2_step dofmap lineRaw = .ok (.next dofmap) := by
    simp [phase2_step, hline, extract]
  exact ⟨h, fun rest => by simp [phase2, h]⟩

theorem phase2_step_zero_dof_witness :
    phase2_step [(82, 1), (546, 3)] "DMIG*  KAAX  abc  0".toList = .ok (.next [(82, 1), (546, 3)]) ∧
      phase2_step [(82, 1), (546, 3)] "DMIG*  KAAX  546  0".toList =
        .ok (.next [(82, 1), (546, 3)]) :=
  ⟨(phase2_step_zero_dof [(82, 1), (546, 3)] "DMIG*  KAAX  abc  0".toList "KAAX".toList
      "abc".toList [] (by decide)).1,
    (phase2_step_zero_dof [(82, 1), (546, 3)] "DMIG*  KAAX  546  0".toList "KAAX".toList
      "546".toList [] (by decide)).1⟩

/-- Claim C8. In the first loop of `build_dofmap`, an `SPOINT` line whose node ID
is already a key leaves the whole table unchanged; when the node ID is not yet
a key it is added with DOF count 1, the table stays in ascending key order and
every other entry is unchanged. -/
theorem phase1_step_spoint (dofmap : DofMap) (lineRaw : Str) (modeIDStr : Str) (more : List Str)
    (modeID : Int) (hord : dofmap.Ordered)
    (hline : tokens lineRaw = "SPOINT".toList :: modeIDStr :: more)
    (hid : stoi modeIDStr = .ok modeID) :
    (toSizeT modeID ∈ dofmap.keys → phase1_step dofmap lineRaw = .ok (.next ⟨dofmap, none⟩)) ∧
      (toSizeT modeID ∉ dofmap.keys →
        ∃ dofmap1 : DofMap, phase1_step dofmap lineRaw = .ok (.next ⟨dofmap1, none⟩) ∧
          dofmap1.Ordered ∧ dofmap1.lookup (toSizeT modeID) = some 1 ∧
          (∀ k, k ∈ dofmap1.keys ↔ k = toSizeT modeID ∨ k ∈ dofmap.keys) ∧
          ∀ k, k ≠ toSizeT modeID → dofmap1.lookup k = dofmap.lookup k) := by
  have hstep : phase1_step dofmap lineRaw = .ok (.next ⟨dofmap.insert (toSizeT modeID) 1, none⟩) := by
    simp [phase1_step, hline, extract, hid]
  constructor
  · intro hk
    rw [hstep, insert_of_key _ _ _ hord hk]
  · intro hk
    exact ⟨_, hstep, insert_ordered _ _ _ hord, lookup_insert_self _ _ _ hk,
      keys_insert _ _ _, fun k hne => lookup_insert_other _ _ _ _ hne⟩

theorem phase1_step_spoint_witness :
    phase1_step [(82, 3), (546, 3)] "SPOINT 82".toList = .ok (.next ⟨[(82, 3), (546, 3)], none⟩) ∧
      ∃ dofmap1 : DofMap,
        phase1_step [(82, 3), (546, 3)] "SPOINT 100".toList = .ok (.next ⟨dofmap1, none⟩) ∧
        dofmap1.lookup 100 = some 1 ∧ dofmap1.lookup 82 = some 3 := by
  refine ⟨(phase1_step_spoint [(82, 3), (546, 3)] "SPOINT 82".toList "82".toList [] 82 (by decide)
    (by decide) (by decide)).1 (by decide), ?_⟩
  obtain ⟨d1, h1, -, h2, -, h3⟩ :=
    (phase1_step_spoint [(82, 3), (546, 3)] "SPOINT 100".toList "100".toList [] 100 (by decide)
      (by decide) (by decide)).2 (by decide)
  exact ⟨d1, h1, h2, by rw [h3 82 (by decide)]; decide⟩

theorem stod_5260 : stod (replaceD "5.26D3".toList) = .ok (.finite false 5260) := by
  have hs : splitSign ((replaceD "5.26D3".toList).dropWhile isspace) = (false, "5.26E3".toList) := by
    decide
  have hp : parseLiteral "5.26E3".toList = some ⟨526, 10, 1⟩ := by decide
  have hi : startsWithCI "inf".toList "5.26E3".toList = false := by decide
  have hn : startsWithCI "nan".toList "5.26E3".toList = false := by decide
  have hr : roundBinary64 5260 1 = ⟨5783431162101760, -40, true⟩ := by decide
  have ht : isTiny 5260 1 = false := by decide
  simp only [stod, hs, hi, hn, hp, toDouble]
  norm_num [hr, ht]

theorem stod_100 : stod (replaceD "1.0D+2".toList) = .ok (.finite false 100) := by
  have hs : splitSign ((replaceD "1.0D+2".toList).dropWhile isspace) = (false, "1.0E+2".toList) := by
    decide
  have hp : parseLiteral "1.0E+2".toList = some ⟨10, 10, 1⟩ := by decide
  have hi : startsWithCI "inf".toList "1.0E+2".toList = false := by decide
  have hn : startsWithCI "nan".toList "1.0E+2".toList = false := by decide
  have hr : roundBinary64 100 1 = ⟨7036874417766400, -46, true⟩ := by decide
  have ht : isTiny 100 1 = false := by decide
  simp only [stod, hs, hi, hn, hp, toDouble]
  norm_num [hr, ht]

/-! ### The table built by `build_dofmap` is in ascending key order -/

theorem phase1_step_ordered (dofmap : DofMap) (lineRaw : Str) (hord : dofmap.Ordered) :
    ∀ b : Build, (phase1_step dofmap lineRaw = .ok (.next b) ∨
      phase1_step dofmap lineRaw = .ok (.done b)) → b.dofmap.Ordered := by
  intro b hb
  unfold phase1_step at hb
  simp only at hb
  split_ifs at hb with h1 h2
  · cases hs : stoi (extract (tokens lineRaw) 1 []) with
    | error e => simp [hs] at hb
    | ok v =>
      simp only [hs] at hb
      rcases hb with hb | hb
      · injection hb with hb
        injection hb with hb
        rw [← hb]
        exact insert_ordered _ _ _ hord
      · injection hb with hb
        cases hb
  · cases hl : (tokens lineRaw).tail.getLast? with
    | none => simp [hl] at hb
    | some last =>
      simp only [hl] at hb
      cases hs : stoi last with
      | error e => simp [hs] at hb
      | ok v =>
        simp only [hs] at hb
        rcases hb with hb | hb
        · injection hb with hb
          cases hb
        · injection hb with hb
          injection hb with hb
          rw [← hb]
          exact hord
  · rcases hb with hb | hb
    · injection hb with hb
      injection hb with hb
      rw [← hb]
      exact hord
    · injection hb with hb
      cases hb

theorem phase1_ordered (ls : List Str) (dofmap : DofMap) (hord : dofmap.Ordered)
    (b : Build) (rest : List Str) (h : phase1 ls dofmap = .ok (b, rest)) : b.dofmap.Ordered := by
  induction ls generalizing dofmap with
  | nil =>
    simp only [phase1] at h
    injection h with h
    injection h with h1 h2
    rw [← h1]
    exact hord
  | cons l ls ih =>
    simp only [phase1] at h
    cases hs : phase1_step dofmap l with
    | error e => simp [hs] at h
    | ok r =>
      cases r with
      | next b1 =>
        simp only [hs] at h
        exact ih b1.dofmap (phase1_step_ordered dofmap l hord b1 (Or.inl hs)) h
      | done b1 =>
        simp only [hs] at h
        injection h with h
        injection h with h1 h2
        rw [← h1]
        exact phase1_step_ordered dofmap l hord b1 (Or.inr hs)

theorem phase2_step_ordered (dofmap : DofMap) (lineRaw : Str) (hord : dofmap.Ordered) :
    ∀ d : DofMap, (phase2_step dofmap lineRaw = .ok (.next d) ∨
      phase2_step dofmap lineRaw = .ok (.done d)) → d.Ordered := by
  intro d hd
  unfold phase2_step at hd
  simp only at hd
  split_ifs at hd with h1 h2 h3
  · rcases hd with hd | hd
    · injection hd with hd
      cases hd
    · injection hd with hd
      injection hd with hd
      exact hd ▸ hord
  · rcases hd with hd | hd
    · injection hd with hd
      injection hd with hd
      exact hd ▸ hord
    · injection hd with hd
      cases hd
  · rcases hd with hd | hd
    · injection hd with hd
      injection hd with hd
      exact hd ▸ hord
    · injection hd with hd
      cases hd
  · cases hs : stoi (extract (tokens lineRaw) 2 []) with
    | error e => simp [hs] at hd
    | ok v =>
      simp only [hs] at hd
      cases hs2 : stoi (extract (tokens lineRaw) 3 []) with
      | error e => simp [hs2] at hd
      | ok w =>
        simp only [hs2] at hd
        rcases hd with hd | hd
        · injection hd with hd
          injection hd with hd
          rw [← hd]
          exact assign_ordered _ _ _ hord
        · injection hd with hd
          cases hd

theorem phase2_ordered (ls : List Str) (dofmap : DofMap) (hord : dofmap.Ordered)
    (d : DofMap) (h : phase2 ls dofmap = .ok d) : d.Ordered := by
  induction ls generalizing dofmap with
  | nil =>
    simp only [phase2] at h
    injection h with h
    exact h ▸ hord
  | cons l ls ih =>
    simp only [phase2] at h
    cases hs : phase2_step dofmap l with
    | error e => simp [hs] at h
    | ok r =>
      cases r with
      | next d1 =>
        simp only [hs] at h
        exact ih d1 (phase2_step_ordered dofmap l hord d1 (Or.inl hs)) h
      | done d1 =>
        simp only [hs] at h
        injection h with h
        rw [← h]
        exact phase2_step_ordered dofmap l hord d1 (Or.inr hs)

theorem build_lines_ordered (ls : List Str) (table : DofMap) (h : build_lines ls = .ok table) :
    table.Ordered := by
  unfold build_lines at h
  cases h1 : phase1 ls [] with
  | error e => simp [h1] at h
  | ok r =>
    obtain ⟨b, rest⟩ := r
    simp only [h1] at h
    have hb : b.dofmap.Ordered := phase1_ordered ls [] (by simp [DofMap.Ordered]) b rest h1
    exact phase2_ordered rest b.dofmap hb table h

theorem build_dofmap_ordered (pch : String) (table : DofMap) (h : build_dofmap pch = .ok table) :
    table.Ordered :=
  build_lines_ordered _ table h

/-! ### The total number of DOFs -/

theorem takeWhile_append_last {α : Type} (p : α → Bool) (init : List α) (x : α)
    (hinit : ∀ a ∈ init, p a = true) (hx : p x = false) :
    (init ++ [x]).takeWhile p = init := by
  induction init with
  | nil => simp [List.takeWhile_cons, hx]
  | cons a as ih =>
    have ha : p a = true := hinit a (List.mem_cons_self _ _)
    simp only [List.cons_append, List.takeWhile_cons, ha, if_true]
    rw [ih (fun b hb => hinit b (List.mem_cons_of_mem _ hb))]

theorem totalDofs_eq (table : DofMap) (hord : table.Ordered) (last : Nat × Nat)
    (hlast : table.getLast? = some last) :
    totalDofs table = .ok ((dofs_before last.1 table + last.2) % SIZE_MOD) ∧
      (dofs_before last.1 table + last.2) % SIZE_MOD = table.total % SIZE_MOD := by
  have hpos : 0 < SIZE_MOD := by unfold SIZE_MOD; positivity
  refine ⟨by simp [totalDofs, hlast], ?_⟩
  have hsplit : table.dropLast ++ [last] = table :=
    List.dropLast_append_getLast? last (by simp [hlast])
  have hord1 := hord
  unfold DofMap.Ordered at hord1
  rw [← hsplit, List.pairwise_append] at hord1
  have htw : table.takeWhile (fun e => decide (e.1 ≠ last.1)) = table.dropLast := by
    conv_lhs => rw [← hsplit]
    apply takeWhile_append_last
    · intro a ha
      have := hord1.2.2 a ha last (by simp)
      simp only [ne_eq, decide_not, Bool.not_eq_eq_eq_not, Bool.not_true, decide_eq_false_iff_not]
      omega
    · simp
  unfold dofs_before
  rw [dofs_before_loop_eq _ _ 0 hpos, htw, Nat.zero_add, Nat.mod_add_mod]
  congr 1
  unfold DofMap.total
  conv_rhs => rw [← hsplit]
  simp

/-! ### Invariants of the loop of `read_matrix` -/

theorem Matrix.set_ok (M M1 : Matrix) (i j : Nat) (v : Double) (h : M.set i j v = .ok M1) :
    i < M.rows ∧ j < M.cols ∧
      M1 = ⟨M.rows, M.cols, fun a b => if a = i ∧ b = j then v else M.coeff a b⟩ := by
  unfold Matrix.set at h
  split_ifs at h with hc
  injection h with h
  exact ⟨hc.1, hc.2, h.symm⟩

/-- What one line does to the matrix: nothing, or the two assignments
`sysMatrix(globalRow, globalCol) = v` and `sysMatrix(globalCol, globalRow) = v`,
both inside the matrix. -/
theorem read_step_matrix (userType : Str) (dofmap : DofMap) (st st1 : Scan) (lineRaw : Str)
    (h : read_step userType dofmap st lineRaw = .ok st1) :
    st1.sysMatrix = st.sysMatrix ∨
      ∃ (gc : Nat) (v : Double) (m1 : Matrix), st.sysMatrix.set st.globalRow gc v = .ok m1 ∧
        m1.set gc st.globalRow v = .ok st1.sysMatrix := by
  unfold read_step at h
  simp only at h
  split_ifs at h with h1 h2 h3
  · injection h with h
    left
    rw [← h]
  · cases hs : stoi (extract (tokens lineRaw) 2 st.nodeIDStr) with
    | error e => simp [hs] at h
    | ok nodeID =>
      cases hs2 : stoi (extract (tokens lineRaw) 3 st.nodeDofStr) with
      | error e => simp [hs, hs2] at h
      | ok nodeDof =>
        simp only [hs, hs2] at h
        injection h with h
        left
        rw [← h]
  · cases hs : stoi (extract (tokens lineRaw) 1 st.nodeIDStr) with
    | error e => simp [hs] at h
    | ok nodeID =>
      cases hs2 : stoi (extract (tokens lineRaw) 2 st.nodeDofStr) with
      | error e => simp [hs, hs2] at h
      | ok nodeDof =>
        cases hs3 : stod (replaceD (extract (tokens lineRaw) 3 [])) with
        | error e => simp [hs, hs2, hs3] at h
        | ok v =>
          simp only [hs, hs2, hs3] at h
          cases hm1 : st.sysMatrix.set st.globalRow
              (globalIndex (dofs_before (toSizeT nodeID) dofmap) (toSizeT nodeDof)) v with
          | error e => simp [hm1] at h
          | ok m1 =>
            simp only [hm1] at h
            cases hm2 : m1.set (globalIndex (dofs_before (toSizeT nodeID) dofmap)
                (toSizeT nodeDof)) st.globalRow v with
            | error e => simp [hm2] at h
            | ok m2 =>
              simp only [hm2] at h
              injection h with h
              right
              refine ⟨_, v, m1, hm1, ?_⟩
              rw [← h]
              exact hm2
  · injection h with h
    left
    rw [← h]

/-- A property of the matrix that holds before the loop and that every line
keeps, holds after the loop. -/
theorem read_loop_matrix_invariant (P : Matrix → Prop) (userType : Str) (dofmap : DofMap)
    (hset : ∀ (M m1 m2 : Matrix) (i j : Nat) (v : Double), P M → M.set i j v = .ok m1 →
      m1.set j i v = .ok m2 → P m2)
    (ls : List Str) (st st1 : Scan) (hP : P st.sysMatrix)
    (h : read_loop userType dofmap ls st = .ok st1) : P st1.sysMatrix := by
  induction ls generalizing st with
  | nil =>
    simp only [read_loop] at h
    injection h with h
    exact h ▸ hP
  | cons l ls ih =>
    simp only [read_loop] at h
    cases hs : read_step userType dofmap st l with
    | error e => simp [hs] at h
    | ok st2 =>
      simp only [hs] at h
      apply ih st2 _ h
      rcases read_step_matrix userType dofmap st st2 l hs with heq | ⟨gc, v, m1, hm1, hm2⟩
      · rw [heq]
        exact hP
      · exact hset _ _ _ _ _ _ hP hm1 hm2

/-- The result of `read_matrix`, unfolded: the table, its total and the final
state of the loop. -/
theorem read_matrix_ok (pch : String) (matrixType : MATRIX) (M : Matrix)
    (h : read_matrix pch matrixType = .ok M) :
    ∃ (dofmap : DofMap) (numDofs : Nat) (st : Scan), build_dofmap pch = .ok dofmap ∧
      totalDofs dofmap = .ok numDofs ∧
      read_loop (userMatrixType matrixType) dofmap (getlines_eof pch.data) (Scan.init numDofs)
        = .ok st ∧ st.sysMatrix = M := by
  unfold read_matrix at h
  cases hb : build_dofmap pch with
  | error e => simp [hb] at h
  | ok dofmap =>
    simp only [hb] at h
    cases ht : totalDofs dofmap with
    | error e => simp [ht] at h
    | ok numDofs =>
      simp only [ht] at h
      cases hl : read_loop (userMatrixType matrixType) dofmap (getlines_eof pch.data)
          (Scan.init numDofs) with
      | error e => simp [hl] at h
      | ok st =>
        simp only [hl] at h
        injection h with h
        exact ⟨dofmap, numDofs, st, rfl, ht, hl, h⟩

/-- Claim C3. When the table built from the file is not empty, a matrix returned
by `read_matrix` is square, its dimension is
`dofs_before(lastKey, table) + table[lastKey]` for the last (largest) key of the
table, computed in `size_t` arithmetic, and this number is the sum of all DOF
counts of the table built by `build_dofmap` from the same file (in `size_t`
arithmetic; the sum itself when it fits in a `size_t`). -/
theorem read_matrix_dimension (pch : String) (matrixType : MATRIX) (table : DofMap) (M : Matrix)
    (htable : build_dofmap pch = .ok table) (hne : table ≠ [])
    (hM : read_matrix pch matrixType = .ok M) :
    ∃ lastKey lastDof : Nat, table.getLast? = some (lastKey, lastDof) ∧
      (∀ k ∈ table.keys, k ≤ lastKey) ∧
      M.rows = (dofs_before lastKey table + lastDof) % SIZE_MOD ∧
      M.cols = (dofs_before lastKey table + lastDof) % SIZE_MOD ∧
      (dofs_before lastKey table + lastDof) % SIZE_MOD = table.total % SIZE_MOD ∧
      (table.total < SIZE_MOD → M.rows = table.total ∧ M.cols = table.total) := by
  obtain ⟨dofmap, numDofs, st, hb, ht, hl, hst⟩ := read_matrix_ok pch matrixType M hM
  rw [htable] at hb
  injection hb with hb
  subst hb
  have hord := build_dofmap_ordered pch table htable
  obtain ⟨last, hlast⟩ : ∃ last, table.getLast? = some last := by
    cases hg : table.getLast? with
    | none => exact absurd (List.getLast?_eq_none_iff.mp hg) hne
    | some last => exact ⟨last, rfl⟩
  obtain ⟨ht1, ht2⟩ := totalDofs_eq table hord last hlast
  rw [ht1] at ht
  injection ht with ht
  have hdim : st.sysMatrix.rows = numDofs ∧ st.sysMatrix.cols = numDofs := by
    apply read_loop_matrix_invariant (fun m => m.rows = numDofs ∧ m.cols = numDofs)
      (userMatrixType matrixType) table _ _ (Scan.init numDofs) st _ hl
    · intro m m1 m2 i j v hP h1 h2
      obtain ⟨_, _, e1⟩ := Matrix.set_ok _ _ _ _ _ h1
      obtain ⟨_, _, e2⟩ := Matrix.set_ok _ _ _ _ _ h2
      rw [e2, e1]
      exact hP
    · exact ⟨rfl, rfl⟩
  rw [hst] at hdim
  have hmax : ∀ k ∈ table.keys, k ≤ last.1 := by
    intro k hk
    have hsplit : table.dropLast ++ [last] = table :=
      List.dropLast_append_getLast? last (by simp [hlast])
    have hord1 := hord
    unfold DofMap.Ordered at hord1
    rw [← hsplit, List.pairwise_append] at hord1
    unfold DofMap.keys at hk
    obtain ⟨a, ha, hak⟩ := List.mem_map.mp hk
    rw [← hsplit, List.mem_append] at ha
    rcases ha with ha | ha
    · have := hord1.2.2 a ha last (by simp)
      omega
    · simp only [List.mem_singleton] at ha
      rw [← hak, ha]
  refine ⟨last.1, last.2, hlast, hmax, ?_, ?_, ht2, ?_⟩
  · rw [hdim.1, ← ht]
  · rw [hdim.2, ← ht]
  · intro hlt
    rw [hdim.1, hdim.2, ← ht, ht2, Nat.mod_eq_of_lt hlt]
    exact ⟨rfl, rfl⟩

/-- Claim C4. Every matrix `M` returned by `read_matrix` is symmetric: for all
`r` and `c` inside `M`, the positions `(r, c)` and `(c, r)` are both inside and
hold the same value. The zero matrix is symmetric and the pair of assignments
of a `*` record keeps the matrix symmetric, also when it overwrites entries
written by earlier records. -/
theorem read_matrix_symmetric (pch : String) (matrixType : MATRIX) (M : Matrix)
    (hM : read_matrix pch matrixType = .ok M) (r c : Nat) (hr : r < M.rows) (hc : c < M.cols) :
    ∃ v : Double, M.get? r c = some v ∧ M.get? c r = some v := by
  obtain ⟨dofmap, numDofs, st, hb, ht, hl, hst⟩ := read_matrix_ok pch matrixType M hM
  have hinv : st.sysMatrix.rows = st.sysMatrix.cols ∧
      ∀ a b, st.sysMatrix.coeff a b = st.sysMatrix.coeff b a := by
    apply read_loop_matrix_invariant (fun m => m.rows = m.cols ∧ ∀ a b, m.coeff a b = m.coeff b a)
      (userMatrixType matrixType) dofmap _ _ (Scan.init numDofs) st _ hl
    · intro m m1 m2 i j v hP h1 h2
      obtain ⟨_, _, e1⟩ := Matrix.set_ok _ _ _ _ _ h1
      obtain ⟨_, _, e2⟩ := Matrix.set_ok _ _ _ _ _ h2
      rw [e2, e1]
      refine ⟨hP.1, ?_⟩
      intro a b
      simp only
      by_cases h3 : a = j ∧ b = i
      · obtain ⟨rfl, rfl⟩ := h3
        simp
      · by_cases h4 : a = i ∧ b = j
        · obtain ⟨rfl, rfl⟩ := h4
          simp
        · have h5 : ¬ (b = j ∧ a = i) := fun h => h4 ⟨h.2, h.1⟩
          have h6 : ¬ (b = i ∧ a = j) := fun h => h3 ⟨h.2, h.1⟩
          simp [h3, h4, h5, h6, hP.2 a b]
    · exact ⟨rfl, fun _ _ => rfl⟩
  rw [hst] at hinv
  refine ⟨M.coeff r c, ?_, ?_⟩
  · simp [Matrix.get?, hr, hc]
  · have h1 : c < M.rows := hinv.1 ▸ hc
    have h2 : r < M.cols := hinv.1 ▸ hr
    simp [Matrix.get?, h1, h2, hinv.2 c r]

/-! ### A scan in which no header has the requested matrix type -/

theorem mem_getlines_of_mem_getlines_eof (content : Str) (l : Str)
    (h : l ∈ getlines_eof content) : l ∈ getlines content := by
  unfold getlines_eof at h
  unfold getlines
  exact List.mem_append_left _ h

theorem read_step_idle (userType : Str) (dofmap : DofMap) (st : Scan) (lineRaw : Str)
    (hline : ¬ carriesType userType lineRaw)
    (hdo : st.doProcess = false) (hty : st.fileMatrixType ≠ userType) :
    ∃ st1 : Scan, read_step userType dofmap st lineRaw = .ok st1 ∧ st1.doProcess = false ∧
      st1.fileMatrixType ≠ userType ∧ st1.sysMatrix = st.sysMatrix := by
  by_cases h0 : extract (tokens lineRaw) 0 [] = "DMIG*".toList
  · have hne : extract (tokens lineRaw) 1 st.fileMatrixType ≠ userType := by
      cases htk : tokens lineRaw with
      | nil =>
        rw [htk] at h0
        simp [extract] at h0
      | cons x t =>
        rw [htk] at h0
        simp only [extract, List.get?_cons_zero, Option.getD_some] at h0
        cases t with
        | nil => simpa [extract] using hty
        | cons y t1 =>
          have hy : y ≠ userType := by
            intro hy
            apply hline
            unfold carriesType
            rw [htk, h0, hy]
            exact ⟨rfl, rfl⟩
          simpa [extract] using hy
    refine ⟨⟨extract (tokens lineRaw) 1 st.fileMatrixType, extract (tokens lineRaw) 2 st.nodeIDStr,
      extract (tokens lineRaw) 3 st.nodeDofStr, st.globalRow, false, st.sysMatrix⟩, ?_, rfl, hne, rfl⟩
    unfold read_step
    simp only [h0, if_true]
    rw [if_pos hne]
  · refine ⟨st, ?_, hdo, hty, rfl⟩
    unfold read_step
    simp only [h0, if_false, hdo]
    simp

theorem read_loop_idle (userType : Str) (dofmap : DofMap) (ls : List Str) (st : Scan)
    (hlines : ∀ l ∈ ls, ¬ carriesType userType l)
    (hdo : st.doProcess = false) (hty : st.fileMatrixType ≠ userType) :
    ∃ st1 : Scan, read_loop userType dofmap ls st = .ok st1 ∧ st1.sysMatrix = st.sysMatrix := by
  induction ls generalizing st with
  | nil => exact ⟨st, rfl, rfl⟩
  | cons l ls ih =>
    obtain ⟨st1, h1, hdo1, hty1, hm1⟩ :=
      read_step_idle userType dofmap st l (hlines l (List.mem_cons_self _ _)) hdo hty
    obtain ⟨st2, h2, hm2⟩ := ih st1 (fun x hx => hlines x (List.mem_cons_of_mem _ hx)) hdo1 hty1
    refine ⟨st2, ?_, hm2.trans hm1⟩
    simp only [read_loop, h1]
    exact h2

/-- Claim C6. For a file whose table is not empty and in which no `DMIG*` line
carries the matrix identifier `MAAX`, `read_matrix` with the MASS kind does not
fail: it returns the square zero matrix whose dimension is the sum of the DOF
counts of the table (in `size_t` arithmetic; the matrix storage is assumed to
be allocated). -/
theorem read_matrix_mass_all_zero (pch : String) (table : DofMap)
    (htable : build_dofmap pch = .ok table) (hne : table ≠ [])
    (hlines : ∀ l ∈ getlines pch.data, ¬ carriesType "MAAX".toList l) :
    read_matrix pch .MASS = .ok (Matrix.zero (table.total % SIZE_MOD) (table.total % SIZE_MOD)) ∧
      ∀ r c : Nat, r < table.total % SIZE_MOD → c < table.total % SIZE_MOD →
        (Matrix.zero (table.total % SIZE_MOD) (table.total % SIZE_MOD)).get? r c
          = some Double.zero := by
  have hord := build_dofmap_ordered pch table htable
  obtain ⟨last, hlast⟩ : ∃ last, table.getLast? = some last := by
    cases hg : table.getLast? with
    | none => exact absurd (List.getLast?_eq_none_iff.mp hg) hne
    | some last => exact ⟨last, rfl⟩
  obtain ⟨ht1, ht2⟩ := totalDofs_eq table hord last hlast
  rw [ht2] at ht1
  obtain ⟨st1, hl, hm⟩ := read_loop_idle (userMatrixType .MASS) table (getlines_eof pch.data)
    (Scan.init (table.total % SIZE_MOD))
    (fun l hl => hlines l (mem_getlines_of_mem_getlines_eof _ _ hl)) rfl
    (by simp [Scan.init, userMatrixType])
  constructor
  · unfold read_matrix
    simp only [htable, ht1, hl]
    rw [hm]
    rfl
  · intro r c hr hc
    simp [Matrix.get?, Matrix.zero, hr, hc]

theorem read_matrix_mass_all_zero_witness :
    read_matrix "SPOINT 82\nDMIG KAAX 0 6 1 0 6\nDMIG* KAAX 546 3\n* 546 3 5.26D3\nDMIG\n" .MASS
      = .ok (Matrix.zero 4 4) :=
  (read_matrix_mass_all_zero "SPOINT 82\nDMIG KAAX 0 6 1 0 6\nDMIG* KAAX 546 3\n* 546 3 5.26D3\nDMIG\n"
    [(82, 1), (546, 3)] (by decide) (by decide) (by decide)).1

/-! ### The body of the loop of `read_matrix`, case by case -/

theorem read_step_other (userType : Str) (dofmap : DofMap) (st : Scan) (lineRaw : Str)
    (h1 : extract (tokens lineRaw) 0 [] ≠ "DMIG*".toList)
    (h2 : extract (tokens lineRaw) 0 [] ≠ "*".toList) :
    read_step userType dofmap st lineRaw = .ok st := by
  unfold read_step
  simp only [h1, h2, if_false, false_and]

theorem read_step_header (userType : Str) (dofmap : DofMap) (st : Scan) (lineRaw : Str)
    (nodeIDStr nodeDofStr : Str) (more : List Str) (nodeID nodeDof : Int)
    (hline : tokens lineRaw = "DMIG*".toList :: userType :: nodeIDStr :: nodeDofStr :: more)
    (hid : stoi nodeIDStr = .ok nodeID) (hdof : stoi nodeDofStr = .ok nodeDof) :
    read_step userType dofmap st lineRaw =
      .ok ⟨userType, nodeIDStr, nodeDofStr,
        globalIndex (dofs_before (toSizeT nodeID) dofmap) (toSizeT nodeDof), true, st.sysMatrix⟩ := by
  unfold read_step
  simp [hline, extract, hid, hdof]

theorem read_step_record (userType : Str) (dofmap : DofMap) (st : Scan) (lineRaw : Str)
    (nodeIDStr nodeDofStr matrixElemStr : Str) (more : List Str) (nodeID nodeDof : Int)
    (matrixElem : Double) (m1 m2 : Matrix)
    (hline : tokens lineRaw = "*".toList :: nodeIDStr :: nodeDofStr :: matrixElemStr :: more)
    (hdo : st.doProcess = true)
    (hid : stoi nodeIDStr = .ok nodeID) (hdof : stoi nodeDofStr = .ok nodeDof)
    (hval : stod (replaceD matrixElemStr) = .ok matrixElem)
    (hm1 : st.sysMatrix.set st.globalRow
      (globalIndex (dofs_before (toSizeT nodeID) dofmap) (toSizeT nodeDof)) matrixElem = .ok m1)
    (hm2 : m1.set (globalIndex (dofs_before (toSizeT nodeID) dofmap) (toSizeT nodeDof))
      st.globalRow matrixElem = .ok m2) :
    read_step userType dofmap st lineRaw =
      .ok ⟨st.fileMatrixType, nodeIDStr, nodeDofStr, st.globalRow, true, m2⟩ := by
  unfold read_step
  simp [hline, extract, hid, hdof, hval, hdo, hm1, hm2]

theorem read_step_record_outside (userType : Str) (dofmap : DofMap) (st : Scan) (lineRaw : Str)
    (nodeIDStr nodeDofStr matrixElemStr : Str) (more : List Str) (nodeID nodeDof : Int)
    (matrixElem : Double)
    (hline : tokens lineRaw = "*".toList :: nodeIDStr :: nodeDofStr :: matrixElemStr :: more)
    (hdo : st.doProcess = true)
    (hid : stoi nodeIDStr = .ok nodeID) (hdof : stoi nodeDofStr = .ok nodeDof)
    (hval : stod (replaceD matrixElemStr) = .ok matrixElem)
    (hout : st.sysMatrix.cols ≤
      globalIndex (dofs_before (toSizeT nodeID) dofmap) (toSizeT nodeDof)) :
    read_step userType dofmap st lineRaw = .error .undefined_behaviour := by
  unfold read_step
  have hm1 : st.sysMatrix.set st.globalRow
      (globalIndex (dofs_before (toSizeT nodeID) dofmap) (toSizeT nodeDof)) matrixElem =
        .error .undefined_behaviour := by
    unfold Matrix.set
    rw [if_neg]
    omega
  simp [hline, extract, hid, hdof, hval, hdo, hm1]

/-! ### The end-to-end scenario -/

theorem scenarioDeclared_table :
    build_dofmap scenarioDeclared = .ok [(82, 1), (546, 3), (547, 2)] := by decide

theorem scenarioDeclared_read :
    read_matrix scenarioDeclared .STIF = .ok ⟨6, 6, fun a b =>
      if a = 5 ∧ b = 3 then .finite false 5260
      else if a = 3 ∧ b = 5 then .finite false 5260 else Double.zero⟩ := by
  have hlines : getlines_eof scenarioDeclared.data =
      ["SPOINT 82".toList, "DMIG KAAX 0 6 1 0 6".toList, "DMIG* KAAX 546 3".toList,
        "* 547 2 5.26D3".toList, "DMIG* KAAX 547 2".toList, "DMIG".toList] := by decide
  have htot : totalDofs [(82, 1), (546, 3), (547, 2)] = .ok 6 := by decide
  have hs1 : ∀ st : Scan, read_step "KAAX".toList [(82, 1), (546, 3), (547, 2)] st
      "SPOINT 82".toList = .ok st :=
    fun st => read_step_other _ _ st _ (by decide) (by decide)
  have hs2 : ∀ st : Scan, read_step "KAAX".toList [(82, 1), (546, 3), (547, 2)] st
      "DMIG KAAX 0 6 1 0 6".toList = .ok st :=
    fun st => read_step_other _ _ st _ (by decide) (by decide)
  have hs3 : ∀ st : Scan, read_step "KAAX".toList [(82, 1), (546, 3), (547, 2)] st
      "DMIG* KAAX 546 3".toList =
        .ok ⟨"KAAX".toList, "546".toList, "3".toList, 3, true, st.sysMatrix⟩ :=
    fun st => read_step_header _ _ st _ "546".toList "3".toList [] 546 3 (by decide) (by decide)
      (by decide)
  have hs5 : ∀ st : Scan, read_step "KAAX".toList [(82, 1), (546, 3), (547, 2)] st
      "DMIG* KAAX 547 2".toList =
        .ok ⟨"KAAX".toList, "547".toList, "2".toList, 5, true, st.sysMatrix⟩ :=
    fun st => read_step_header _ _ st _ "547".toList "2".toList [] 547 2 (by decide) (by decide)
      (by decide)
  have hs6 : ∀ st : Scan, read_step "KAAX".toList [(82, 1), (546, 3), (547, 2)] st
      "DMIG".toList = .ok st :=
    fun st => read_step_other _ _ st _ (by decide) (by decide)
  have hs4 : read_step "KAAX".toList [(82, 1), (546, 3), (547, 2)]
      ⟨"KAAX".toList, "546".toList, "3".toList, 3, true, Matrix.zero 6 6⟩ "* 547 2 5.26D3".toList =
        .ok ⟨"KAAX".toList, "547".toList, "2".toList, 3, true, ⟨6, 6, fun a b =>
          if a = 5 ∧ b = 3 then .finite false 5260
          else if a = 3 ∧ b = 5 then .finite false 5260 else Double.zero⟩⟩ :=
    read_step_record _ _ _ _ "547".toList "2".toList "5.26D3".toList [] 547 2 _ _ _ (by decide)
      rfl (by decide) (by decide) stod_5260 rfl rfl
  unfold read_matrix
  rw [scenarioDeclared_table]
  simp only [htot]
  rw [hlines]
  have huser : userMatrixType .STIF = "KAAX".toList := rfl
  rw [huser]
  simp only [read_loop, hs1, hs2, hs3, hs5, hs6, Scan.init, hs4]

/-! ### The last record of a node decides its DOF count -/

theorem phase1_step_next_not_bare (dofmap : DofMap) (lineRaw : Str) (b : Build)
    (h : phase1_step dofmap lineRaw = .ok (.next b)) : isBareDMIG lineRaw = false := by
  unfold phase1_step at h
  simp only at h
  unfold isBareDMIG
  split_ifs at h with h1 h2
  · rw [h1]
    decide
  · cases hl : (tokens lineRaw).tail.getLast? with
    | none => simp [hl] at h
    | some last =>
      simp only [hl] at h
      cases hs : stoi last with
      | error e => simp [hs] at h
      | ok v => simp [hs] at h
  · simpa using h2

theorem phase1_step_done_bare (dofmap : DofMap) (lineRaw : Str) (b : Build)
    (h : phase1_step dofmap lineRaw = .ok (.done b)) :
    isBareDMIG lineRaw = true ∧ b.dofmap = dofmap := by
  unfold phase1_step at h
  simp only at h
  unfold isBareDMIG
  split_ifs at h with h1 h2
  · cases hs : stoi (extract (tokens lineRaw) 1 []) with
    | error e => simp [hs] at h
    | ok v => simp [hs] at h
  · cases hl : (tokens lineRaw).tail.getLast? with
    | none => simp [hl] at h
    | some last =>
      simp only [hl] at h
      cases hs : stoi last with
      | error e => simp [hs] at h
      | ok v =>
        simp only [hs] at h
        injection h with h
        injection h with h
        rw [← h]
        exact ⟨by simpa using h2, rfl⟩
  · simp at h

/-- The lines left after the first loop are the lines after the first bare
`DMIG` line. -/
theorem phase1_rest (ls : List Str) (dofmap : DofMap) (b : Build) (rest : List Str)
    (h : phase1 ls dofmap = .ok (b, rest)) :
    rest = (ls.dropWhile (fun l => !isBareDMIG l)).tail := by
  induction ls generalizing dofmap with
  | nil =>
    simp only [phase1] at h
    injection h with h
    injection h with h1 h2
    simp [← h2]
  | cons l ls ih =>
    simp only [phase1] at h
    cases hs : phase1_step dofmap l with
    | error e => simp [hs] at h
    | ok r =>
      cases r with
      | next b1 =>
        simp only [hs] at h
        have hb := phase1_step_next_not_bare dofmap l b1 hs
        rw [List.dropWhile_cons, hb]
        simpa using ih b1.dofmap h
      | done b1 =>
        simp only [hs] at h
        injection h with h
        injection h with h1 h2
        have hb := (phase1_step_done_bare dofmap l b1 hs).1
        rw [List.dropWhile_cons, hb]
        simp [← h2]

/-- The body of the second loop, in terms of the assignment a line carries. -/
theorem phase2_step_cases (dofmap : DofMap) (lineRaw : Str) (r : Loop DofMap)
    (h : phase2_step dofmap lineRaw = .ok r) :
    (isBareDMIG lineRaw = true ∧ r = .done dofmap) ∨
      (isBareDMIG lineRaw = false ∧ assignment? lineRaw = none ∧ r = .next dofmap) ∨
      (isBareDMIG lineRaw = false ∧ ∃ k v, assignment? lineRaw = some (k, v) ∧
        r = .next (dofmap.assign k v)) := by
  unfold phase2_step at h
  simp only at h
  unfold isBareDMIG assignment?
  split_ifs at h with h1 h2 h3
  · left
    injection h with h
    exact ⟨by simpa using h1, h.symm⟩
  · right; left
    injection h with h
    refine ⟨by simpa using h1, ?_, h.symm⟩
    rw [if_neg]
    intro hc
    exact h2 hc.1
  · right; left
    injection h with h
    refine ⟨by simpa using h1, ?_, h.symm⟩
    rw [if_neg]
    intro hc
    exact hc.2 h3
  · right; right
    have h2' : extract (tokens lineRaw) 0 [] = "DMIG*".toList := by
      by_contra hc
      exact h2 hc
    cases hs : stoi (extract (tokens lineRaw) 2 []) with
    | error e => simp [hs] at h
    | ok nodeID =>
      cases hs2 : stoi (extract (tokens lineRaw) 3 []) with
      | error e => simp [hs, hs2] at h
      | ok nodeDof =>
        simp only [hs, hs2] at h
        injection h with h
        refine ⟨by simpa using h1, toSizeT nodeID, toSizeT nodeDof, ?_, h.symm⟩
        rw [if_pos ⟨h2', h3⟩]

theorem lastAssignment_nil (n : Nat) : lastAssignment n [] = none := rfl

theorem lastAssignment_cons_none (n : Nat) (l : Str) (ls : List Str)
    (h : assignment? l = none) : lastAssignment n (l :: ls) = lastAssignment n ls := by
  simp [lastAssignment, List.filterMap_cons, h]

theorem lastAssignment_cons_some (n : Nat) (l : Str) (ls : List Str) (k v : Nat)
    (h : assignment? l = some (k, v)) :
    lastAssignment n (l :: ls) =
      match lastAssignment n ls with
      | some w => some w
      | none => if k = n then some v else none := by
  unfold lastAssignment
  rw [List.filterMap_cons, h]
  simp only [List.filter_cons]
  by_cases hk : k = n
  · simp only [hk, decide_True, if_true]
    rw [List.getLast?_cons]
    cases (List.filter (fun e => decide (e.1 = n)) (List.filterMap assignment? ls)).getLast? with
    | none => rfl
    | some w => rfl
  · simp only [hk, decide_False, Bool.false_eq_true, if_false]
    cases (List.filter (fun e => decide (e.1 = n)) (List.filterMap assignment? ls)).getLast? with
    | none => rfl
    | some w => rfl

/-- The table after the second loop: for every node, the DOF count of its last
assignment among the lines before the closing `DMIG` line, or the count it
had before the loop when no line assigns one. -/
theorem phase2_lookup (ls : List Str) (dofmap table : DofMap) (n : Nat)
    (h : phase2 ls dofmap = .ok table) :
    table.lookup n =
      match lastAssignment n (ls.takeWhile (fun l => !isBareDMIG l)) with
      | some w => some w
      | none => dofmap.lookup n := by
  induction ls generalizing dofmap with
  | nil =>
    simp only [phase2] at h
    injection h with h
    simp [lastAssignment_nil, h]
  | cons l ls ih =>
    simp only [phase2] at h
    cases hs : phase2_step dofmap l with
    | error e => simp [hs] at h
    | ok r =>
      rcases phase2_step_cases dofmap l r hs with ⟨hb, hr⟩ | ⟨hb, ha, hr⟩ | ⟨hb, k, v, ha, hr⟩
      · subst hr
        simp only [hs] at h
        injection h with h
        simp [List.takeWhile_cons, hb, lastAssignment_nil, h]
      · subst hr
        simp only [hs] at h
        rw [ih dofmap h]
        simp only [List.takeWhile_cons, hb, Bool.not_false, if_true]
        rw [lastAssignment_cons_none n l _ ha]
      · subst hr
        simp only [hs] at h
        rw [ih _ h]
        simp only [List.takeWhile_cons, hb, Bool.not_false, if_true]
        rw [lastAssignment_cons_some n l _ k v ha]
        cases hg : lastAssignment n (List.takeWhile (fun l => !isBareDMIG l) ls) with
        | some w => rfl
        | none =>
          simp only
          by_cases hk : k = n
          · subst hk
            simp [lookup_assign_self]
          · have hne : n ≠ k := fun hc => hk hc.symm
            simp [hk, lookup_assign_other k v n dofmap hne]

/-! ### The remaining statements -/

theorem read_matrix_dimension_witness :
    ∃ M : Matrix, read_matrix scenarioDeclared .STIF = .ok M ∧ M.rows = 6 ∧ M.cols = 6 ∧
      DofMap.total [(82, 1), (546, 3), (547, 2)] = 6 := by
  obtain ⟨lastKey, lastDof, -, -, -, -, -, hexact⟩ :=
    read_matrix_dimension scenarioDeclared .STIF [(82, 1), (546, 3), (547, 2)] _
      scenarioDeclared_table (by decide) scenarioDeclared_read
  exact ⟨_, scenarioDeclared_read, (hexact (by decide)).1, (hexact (by decide)).2, by decide⟩

theorem read_matrix_symmetric_witness :
    ∃ M : Matrix, read_matrix scenarioDeclared .STIF = .ok M ∧
      ∃ v : Double, M.get? 3 5 = some v ∧ M.get? 5 3 = some v :=
  ⟨_, scenarioDeclared_read,
    read_matrix_symmetric scenarioDeclared .STIF _ scenarioDeclared_read 3 5 (by decide) (by decide)⟩

theorem scenario_table : build_dofmap scenario = .ok [(82, 1), (546, 3)] := by decide

theorem scenario_read : read_matrix scenario .STIF = .error .undefined_behaviour := by
  have hlines : getlines_eof scenario.data =
      ["SPOINT 82".toList, "DMIG KAAX 0 6 1 0 6".toList, "DMIG* KAAX 546 3".toList,
        "* 547 2 5.26D3".toList, "DMIG".toList] := by decide
  have htot : totalDofs [(82, 1), (546, 3)] = .ok 4 := by decide
  have hs1 : ∀ st : Scan, read_step "KAAX".toList [(82, 1), (546, 3)] st
      "SPOINT 82".toList = .ok st :=
    fun st => read_step_other _ _ st _ (by decide) (by decide)
  have hs2 : ∀ st : Scan, read_step "KAAX".toList [(82, 1), (546, 3)] st
      "DMIG KAAX 0 6 1 0 6".toList = .ok st :=
    fun st => read_step_other _ _ st _ (by decide) (by decide)
  have hs3 : ∀ st : Scan, read_step "KAAX".toList [(82, 1), (546, 3)] st
      "DMIG* KAAX 546 3".toList =
        .ok ⟨"KAAX".toList, "546".toList, "3".toList, 3, true, st.sysMatrix⟩ :=
    fun st => read_step_header _ _ st _ "546".toList "3".toList [] 546 3 (by decide) (by decide)
      (by decide)
  have hs4 : read_step "KAAX".toList [(82, 1), (546, 3)]
      ⟨"KAAX".toList, "546".toList, "3".toList, 3, true, Matrix.zero 4 4⟩ "* 547 2 5.26D3".toList =
        .error .undefined_behaviour :=
    read_step_record_outside _ _ _ _ "547".toList "2".toList "5.26D3".toList [] 547 2 _ (by decide)
      rfl (by decide) (by decide) stod_5260 (by decide)
  unfold read_matrix
  rw [scenario_table]
  simp only [htot]
  rw [hlines]
  have huser : userMatrixType .STIF = "KAAX".toList := rfl
  rw [huser]
  simp only [read_loop, hs1, hs2, hs3, Scan.init, hs4]

/-- Claim C5, the code at the failing input. The `DMIG` header line of the
scenario declares 6 DOFs, and the positions `(3, 5)` and `(5, 3)` of the claim
are inside a matrix of that dimension. The code sizes the matrix from the
table, `{82 ↦ 1, 546 ↦ 3}`, in which node 547 is not a key: the dimension is 4,
`dofs_before(547, T)` is the total 4, the column `dofs_before(547, T) + 1 = 5`
is outside the matrix and `read_matrix` performs an access outside the matrix
instead of returning a matrix with that entry. -/
theorem scenario_entry_outside :
    dmig_hint scenario = some 6 ∧
      build_dofmap scenario = .ok [(82, 1), (546, 3)] ∧
      totalDofs [(82, 1), (546, 3)] = .ok 4 ∧
      dofs_before 546 [(82, 1), (546, 3)] + 2 = 3 ∧
      dofs_before 547 [(82, 1), (546, 3)] + 1 = 5 ∧
      (dofs_before 546 [(82, 1), (546, 3)] + 2 < 6 ∧
        dofs_before 547 [(82, 1), (546, 3)] + 1 < 6) ∧
      ¬ dofs_before 547 [(82, 1), (546, 3)] + 1 < 4 ∧
      read_matrix scenario .STIF = .error .undefined_behaviour ∧
      ¬ ∃ (M : Matrix) (T : DofMap), build_dofmap scenario = .ok T ∧
        read_matrix scenario .STIF = .ok M ∧
        M.get? (dofs_before 546 T + 2) (dofs_before 547 T + 1) = some (.finite false 5260) ∧
        M.get? (dofs_before 547 T + 1) (dofs_before 546 T + 2) = some (.finite false 5260) := by
  refine ⟨by decide, scenario_table, by decide, by decide, by decide, by decide, by decide,
    scenario_read, ?_⟩
  rintro ⟨M, T, -, hM, -⟩
  rw [scenario_read] at hM
  cases hM

/-- Claim C9. The value conversion of a `*` record (every `D` of the token
replaced by `E`, then `std::stod`) maps `1.0D+2` to 100.0 and `5.26D3` to
5260.0; for every token the substitution keeps the length, leaves no `D`, puts
`E` where a `D` was and keeps every other character in place. -/
theorem value_conversion :
    stod (replaceD "1.0D+2".toList) = .ok (.finite false 100) ∧
      stod (replaceD "5.26D3".toList) = .ok (.finite false 5260) ∧
      ∀ token : Str, (replaceD token).length = token.length ∧ 'D' ∉ replaceD token ∧
        ∀ (i : Nat) (c : Char), token.get? i = some c →
          (c ≠ 'D' → (replaceD token).get? i = some c) ∧
          (c = 'D' → (replaceD token).get? i = some 'E') := by
  refine ⟨stod_100, stod_5260, ?_⟩
  intro token
  refine ⟨by simp [replaceD], ?_, ?_⟩
  · unfold replaceD
    intro hmem
    obtain ⟨c, -, hc⟩ := List.mem_map.mp hmem
    by_cases h : c = 'D'
    · rw [if_pos h] at hc
      exact absurd hc (by decide)
    · rw [if_neg h] at hc
      exact h hc
  · intro i c hi
    unfold replaceD
    rw [List.get?_eq_getElem?] at hi ⊢
    rw [List.getElem?_map, hi]
    constructor
    · intro hne
      simp [hne]
    · intro heq
      simp [heq]

/-- Claim C10. For every file from which `build_dofmap` returns a table, and
every node ID with at least one record in phase 2 (a `DMIG*` line, between the
first bare `DMIG` line and the next one, whose local-DOF token is not `0`), the
DOF count of the node in the table is the local-DOF number of the last such
record of that node in file order, whatever earlier records or an `SPOINT`
line gave it. -/
theorem build_dofmap_last_record (pch : String) (table : DofMap) (nodeID nodeDof : Nat)
    (htable : build_dofmap pch = .ok table)
    (hlast : lastAssignment nodeID (phase2Lines (getlines pch.data)) = some nodeDof) :
    table.lookup nodeID = some nodeDof := by
  unfold build_dofmap build_lines at htable
  cases h1 : phase1 (getlines pch.data) [] with
  | error e => simp [h1] at htable
  | ok r =>
    obtain ⟨b, rest⟩ := r
    simp only [h1] at htable
    have hrest := phase1_rest _ _ b rest h1
    have h2 := phase2_lookup rest b.dofmap table nodeID htable
    rw [hrest] at h2
    unfold phase2Lines at hlast
    rw [hlast] at h2
    exact h2

theorem build_dofmap_last_record_witness :
    build_dofmap "SPOINT 5\nDMIG KAAX 0 6 1 0 6\nDMIG* KAAX 5 3\nDMIG* KAAX 5 0\nDMIG* KAAX 5 2\nDMIG\nDMIG* KAAX 5 6\n"
        = .ok [(5, 2)] ∧
      DofMap.lookup 5 [(5, 2)] = some 2 :=
  ⟨by decide,
    build_dofmap_last_record
      "SPOINT 5\nDMIG KAAX 0 6 1 0 6\nDMIG* KAAX 5 3\nDMIG* KAAX 5 0\nDMIG* KAAX 5 2\nDMIG\nDMIG* KAAX 5 6\n"
      [(5, 2)] 5 2 (by decide) (by decide)⟩

/-! ### The declared total and the end of the file -/

theorem hintFile_read :
    read_matrix hintFile .STIF = .ok ⟨4, 4, fun a b =>
      if a = 3 ∧ b = 3 then .finite false 5260
      else if a = 3 ∧ b = 3 then .finite false 5260 else Double.zero⟩ := by
  have hlines : getlines_eof hintFile.data =
      ["SPOINT 82".toList, "DMIG KAAX 0 6 1 0 6".toList, "DMIG* KAAX 546 3".toList,
        "* 546 3 5.26D3".toList, "DMIG".toList] := by decide
  have htab : build_dofmap hintFile = .ok [(82, 1), (546, 3)] := by decide
  have htot : totalDofs [(82, 1), (546, 3)] = .ok 4 := by decide
  have hs1 : ∀ st : Scan, read_step "KAAX".toList [(82, 1), (546, 3)] st
      "SPOINT 82".toList = .ok st :=
    fun st => read_step_other _ _ st _ (by decide) (by decide)
  have hs2 : ∀ st : Scan, read_step "KAAX".toList [(82, 1), (546, 3)] st
      "DMIG KAAX 0 6 1 0 6".toList = .ok st :=
    fun st => read_step_other _ _ st _ (by decide) (by decide)
  have hs3 : ∀ st : Scan, read_step "KAAX".toList [(82, 1), (546, 3)] st
      "DMIG* KAAX 546 3".toList =
        .ok ⟨"KAAX".toList, "546".toList, "3".toList, 3, true, st.sysMatrix⟩ :=
    fun st => read_step_header _ _ st _ "546".toList "3".toList [] 546 3 (by decide) (by decide)
      (by decide)
  have hs5 : ∀ st : Scan, read_step "KAAX".toList [(82, 1), (546, 3)] st
      "DMIG".toList = .ok st :=
    fun st => read_step_other _ _ st _ (by decide) (by decide)
  have hs4 : read_step "KAAX".toList [(82, 1), (546, 3)]
      ⟨"KAAX".toList, "546".toList, "3".toList, 3, true, Matrix.zero 4 4⟩ "* 546 3 5.26D3".toList =
        .ok ⟨"KAAX".toList, "546".toList, "3".toList, 3, true, ⟨4, 4, fun a b =>
          if a = 3 ∧ b = 3 then .finite false 5260
          else if a = 3 ∧ b = 3 then .finite false 5260 else Double.zero⟩⟩ :=
    read_step_record _ _ _ _ "546".toList "3".toList "5.26D3".toList [] 546 3 _ _ _ (by decide)
      rfl (by decide) (by decide) stod_5260 rfl rfl
  unfold read_matrix
  rw [htab]
  simp only [htot]
  rw [hlines]
  have huser : userMatrixType .STIF = "KAAX".toList := rfl
  rw [huser]
  simp only [read_loop, hs1, hs2, hs3, hs5, Scan.init, hs4]

/-- Claim C12, the code at the failing input. The `DMIG` header line of the file
declares 6 DOFs, the records give 1 + 3 = 4 DOFs, and `read_matrix` returns a
matrix of 4 rows and 4 columns: the dimension is the sum of the table, not the
number read from the header line. -/
theorem hint_not_dimension :
    dmig_hint hintFile = some 6 ∧
      build_dofmap hintFile = .ok [(82, 1), (546, 3)] ∧
      ∃ M : Matrix, read_matrix hintFile .STIF = .ok M ∧ M.rows = 4 ∧ M.cols = 4 ∧
        M.rows ≠ 6 :=
  ⟨by decide, by decide, _, hintFile_read, rfl, rfl, by decide⟩

theorem read_step_last_record :
    read_step "KAAX".toList [(5, 1)]
      ⟨"KAAX".toList, "5".toList, "1".toList, 0, true, Matrix.zero 1 1⟩ "* 5 1 5.26D3".toList =
        .ok ⟨"KAAX".toList, "5".toList, "1".toList, 0, true, ⟨1, 1, fun a b =>
          if a = 0 ∧ b = 0 then .finite false 5260
          else if a = 0 ∧ b = 0 then .finite false 5260 else Double.zero⟩⟩ :=
  read_step_record _ _ _ _ "5".toList "1".toList "5.26D3".toList [] 5 1 _ _ _ (by decide)
    rfl (by decide) (by decide) stod_5260 rfl rfl

/-- Claim C18, the code at the failing input. The two files have the same lines
and `build_dofmap` reads all of them in both, but the loop of `read_matrix`
leaves out the last line when no newline ends it: the record `* 5 1 5.26D3` is
written into the matrix of the terminated file only. -/
theorem last_line_dropped :
    getlines unterminatedFile.data = getlines terminatedFile.data ∧
      getlines_eof terminatedFile.data = getlines terminatedFile.data ∧
      getlines_eof unterminatedFile.data = (getlines unterminatedFile.data).dropLast ∧
      build_dofmap unterminatedFile = .ok [(5, 1)] ∧
      build_dofmap terminatedFile = .ok [(5, 1)] ∧
      read_matrix unterminatedFile .STIF = .ok (Matrix.zero 1 1) ∧
      ∃ M : Matrix, read_matrix terminatedFile .STIF = .ok M ∧
        M.get? 0 0 = some (.finite false 5260) := by
  have htot : totalDofs [(5, 1)] = .ok 1 := by decide
  have huser : userMatrixType .STIF = "KAAX".toList := rfl
  have hs1 : ∀ st : Scan, read_step "KAAX".toList [(5, 1)] st "SPOINT 5".toList = .ok st :=
    fun st => read_step_other _ _ st _ (by decide) (by decide)
  have hs2 : ∀ st : Scan, read_step "KAAX".toList [(5, 1)] st
      "DMIG KAAX 0 1 1 0 1".toList = .ok st :=
    fun st => read_step_other _ _ st _ (by decide) (by decide)
  have hs3 : ∀ st : Scan, read_step "KAAX".toList [(5, 1)] st "DMIG* KAAX 5 1".toList =
      .ok ⟨"KAAX".toList, "5".toList, "1".toList, 0, true, st.sysMatrix⟩ :=
    fun st => read_step_header _ _ st _ "5".toList "1".toList [] 5 1 (by decide) (by decide)
      (by decide)
  have hu : getlines_eof unterminatedFile.data =
      ["SPOINT 5".toList, "DMIG KAAX 0 1 1 0 1".toList, "DMIG* KAAX 5 1".toList] := by decide
  have ht : getlines_eof terminatedFile.data =
      ["SPOINT 5".toList, "DMIG KAAX 0 1 1 0 1".toList, "DMIG* KAAX 5 1".toList,
        "* 5 1 5.26D3".toList] := by decide
  have hbu : build_dofmap unterminatedFile = .ok [(5, 1)] := by decide
  have hbt : build_dofmap terminatedFile = .ok [(5, 1)] := by decide
  refine ⟨by decide, by decide, by decide, hbu, hbt, ?_, ?_⟩
  · unfold read_matrix
    rw [hbu]
    simp only [htot]
    rw [hu, huser]
    simp only [read_loop, hs1, hs2, hs3, Scan.init]
  · refine ⟨⟨1, 1, fun a b => if a = 0 ∧ b = 0 then .finite false 5260
      else if a = 0 ∧ b = 0 then .finite false 5260 else Double.zero⟩, ?_, ?_⟩
    · unfold read_matrix
      rw [hbt]
      simp only [htot]
      rw [ht, huser]
      simp only [read_loop, hs1, hs2, hs3, Scan.init, read_step_last_record]
    · simp [Matrix.get?]

/-! ### DOF counts and global indices -/

theorem mem_insert (k v : Nat) (m : DofMap) (e : Nat × Nat) (h : e ∈ m.insert k v) :
    e = (k, v) ∨ e ∈ m := by
  induction m with
  | nil => simpa [DofMap.insert] using h
  | cons a rest ih =>
    obtain ⟨k1, v1⟩ := a
    by_cases h1 : k < k1
    · simp only [DofMap.insert, h1, if_true, List.mem_cons] at h ⊢
      exact h
    · by_cases h2 : k = k1
      · simp only [DofMap.insert, h1, h2, if_false, if_true, lt_irrefl] at h
        exact Or.inr h
      · simp only [DofMap.insert, h1, h2, if_false, List.mem_cons] at h ⊢
        rcases h with h | h
        · exact Or.inr (Or.inl h)
        · rcases ih h with h | h
          · exact Or.inl h
          · exact Or.inr (Or.inr h)

theorem mem_assign (k v : Nat) (m : DofMap) (e : Nat × Nat) (h : e ∈ m.assign k v) :
    e = (k, v) ∨ e ∈ m := by
  induction m with
  | nil => simpa [DofMap.assign] using h
  | cons a rest ih =>
    obtain ⟨k1, v1⟩ := a
    by_cases h1 : k < k1
    · simp only [DofMap.assign, h1, if_true, List.mem_cons] at h ⊢
      exact h
    · by_cases h2 : k = k1
      · simp only [DofMap.assign, h1, h2, if_false, if_true, lt_irrefl, List.mem_cons] at h ⊢
        rcases h with h | h
        · exact Or.inl h
        · exact Or.inr (Or.inr h)
      · simp only [DofMap.assign, h1, h2, if_false, List.mem_cons] at h ⊢
        rcases h with h | h
        · exact Or.inr (Or.inl h)
        · rcases ih h with h | h
          · exact Or.inl h
          · exact Or.inr (Or.inr h)

/-- The body of the first loop, in terms of the node a line registers. -/
theorem phase1_step_cases (dofmap : DofMap) (lineRaw : Str) (r : Loop Build)
    (h : phase1_step dofmap lineRaw = .ok r) :
    (isBareDMIG lineRaw = true ∧ ∃ hint, r = .done ⟨dofmap, hint⟩) ∨
      (isBareDMIG lineRaw = false ∧ spoint? lineRaw = none ∧ r = .next ⟨dofmap, none⟩) ∨
      (isBareDMIG lineRaw = false ∧ ∃ k, spoint? lineRaw = some k ∧
        r = .next ⟨dofmap.insert k 1, none⟩) := by
  unfold phase1_step at h
  simp only at h
  unfold isBareDMIG spoint?
  split_ifs at h with h1 h2
  · right; right
    cases hs : stoi (extract (tokens lineRaw) 1 []) with
    | error e => simp [hs] at h
    | ok v =>
      simp only [hs] at h
      injection h with h
      refine ⟨?_, toSizeT v, ?_, h.symm⟩
      · rw [h1]
        decide
      · rw [if_pos h1]
  · left
    cases hl : (tokens lineRaw).tail.getLast? with
    | none => simp [hl] at h
    | some last =>
      simp only [hl] at h
      cases hs : stoi last with
      | error e => simp [hs] at h
      | ok v =>
        simp only [hs] at h
        injection h with h
        exact ⟨by simpa using h2, _, h.symm⟩
  · right; left
    injection h with h
    exact ⟨by simpa using h2, by rw [if_neg h1], h.symm⟩

/-- A property of the table that the insertion of a scalar point keeps, holds
after the first loop. -/
theorem phase1_invariant (P : DofMap → Prop)
    (hins : ∀ (d : DofMap) (k : Nat), P d → P (d.insert k 1))
    (ls : List Str) (dofmap : DofMap) (b : Build) (rest : List Str) (hP : P dofmap)
    (h : phase1 ls dofmap = .ok (b, rest)) : P b.dofmap := by
  induction ls generalizing dofmap with
  | nil =>
    simp only [phase1] at h
    injection h with h
    injection h with h1 h2
    rw [← h1]
    exact hP
  | cons l ls ih =>
    simp only [phase1] at h
    cases hs : phase1_step dofmap l with
    | error e => simp [hs] at h
    | ok r =>
      rcases phase1_step_cases dofmap l r hs with ⟨-, hint, hr⟩ | ⟨-, -, hr⟩ | ⟨-, k, -, hr⟩
      · subst hr
        simp only [hs] at h
        injection h with h
        injection h with h1 h2
        rw [← h1]
        exact hP
      · subst hr
        simp only [hs] at h
        exact ih dofmap hP h
      · subst hr
        simp only [hs] at h
        exact ih _ (hins dofmap k hP) h

/-- A bound on the DOF counts that every assignment of the second loop meets
holds after the loop. -/
theorem phase2_counts (ls : List Str) (dofmap table : DofMap)
    (hpos : ∀ e ∈ dofmap, 1 ≤ e.2)
    (hlines : ∀ l ∈ ls.takeWhile (fun l => !isBareDMIG l), ∀ k v,
      assignment? l = some (k, v) → 1 ≤ v)
    (h : phase2 ls dofmap = .ok table) : ∀ e ∈ table, 1 ≤ e.2 := by
  induction ls generalizing dofmap with
  | nil =>
    simp only [phase2] at h
    injection h with h
    exact h ▸ hpos
  | cons l ls ih =>
    simp only [phase2] at h
    cases hs : phase2_step dofmap l with
    | error e => simp [hs] at h
    | ok r =>
      rcases phase2_step_cases dofmap l r hs with ⟨hb, hr⟩ | ⟨hb, ha, hr⟩ | ⟨hb, k, v, ha, hr⟩
      · subst hr
        simp only [hs] at h
        injection h with h
        exact h ▸ hpos
      · subst hr
        simp only [hs] at h
        apply ih dofmap hpos _ h
        intro x hx
        apply hlines
        simp [List.takeWhile_cons, hb, hx]
      · subst hr
        simp only [hs] at h
        apply ih _ _ _ h
        · intro e he
          rcases mem_assign k v dofmap e he with he | he
          · rw [he]
            exact hlines l (by simp [List.takeWhile_cons, hb]) k v ha
          · exact hpos e he
        · intro x hx
          apply hlines
          simp [List.takeWhile_cons, hb, hx]

/-- Claim C14, refuted as stated. The local-DOF tokens `00` and `+0` are not the
string `0`, so the records are not skipped and the DOF count 0 is stored. -/
theorem zero_count_stored :
    build_dofmap zeroDofFile = .ok [(5, 0), (6, 0)] ∧
      ¬ ∀ table : DofMap, build_dofmap zeroDofFile = .ok table → ∀ e ∈ table, 1 ≤ e.2 := by
  have hb : build_dofmap zeroDofFile = .ok [(5, 0), (6, 0)] := by decide
  refine ⟨hb, ?_⟩
  intro h
  have := h _ hb (5, 0) (by simp)
  simp at this

/-- Claim C14, amended. Every DOF count of the table returned by `build_dofmap` is
at least 1 provided every record of phase 2 (a `DMIG*` line whose local-DOF
token is not the string `0`) carries a local-DOF number that is at least 1;
the counts registered by `SPOINT` lines are 1. -/
theorem build_dofmap_counts_positive (pch : String) (table : DofMap)
    (htable : build_dofmap pch = .ok table)
    (hrec : ∀ r ∈ (phase2Lines (getlines pch.data)).filterMap assignment?, 1 ≤ r.2) :
    ∀ e ∈ table, 1 ≤ e.2 := by
  unfold build_dofmap build_lines at htable
  cases h1 : phase1 (getlines pch.data) [] with
  | error e => simp [h1] at htable
  | ok r =>
    obtain ⟨b, rest⟩ := r
    simp only [h1] at htable
    have hrest := phase1_rest _ _ b rest h1
    have hb : ∀ e ∈ b.dofmap, 1 ≤ e.2 := by
      apply phase1_invariant (fun d => ∀ e ∈ d, 1 ≤ e.2) _ _ [] b rest _ h1
      · intro d k hd e he
        rcases mem_insert k 1 d e he with he | he
        · rw [he]
        · exact hd e he
      · simp
    apply phase2_counts rest b.dofmap table hb _ htable
    rw [hrest]
    intro l hl k v ha
    exact hrec (k, v) (List.mem_filterMap.mpr ⟨l, hl, ha⟩)

theorem build_dofmap_counts_positive_witness :
    build_dofmap "SPOINT 82\nSPOINT 5\nDMIG KAAX 0 6 1 0 6\nDMIG* KAAX 5 2\nDMIG\n"
        = .ok [(5, 2), (82, 1)] ∧
      1 ≤ ((5, 2) : Nat × Nat).2 ∧ 1 ≤ ((82, 1) : Nat × Nat).2 :=
  ⟨by decide,
    build_dofmap_counts_positive "SPOINT 82\nSPOINT 5\nDMIG KAAX 0 6 1 0 6\nDMIG* KAAX 5 2\nDMIG\n"
      [(5, 2), (82, 1)] (by decide) (by decide) (5, 2) (by decide),
    build_dofmap_counts_positive "SPOINT 82\nSPOINT 5\nDMIG KAAX 0 6 1 0 6\nDMIG* KAAX 5 2\nDMIG\n"
      [(5, 2), (82, 1)] (by decide) (by decide) (82, 1) (by decide)⟩

theorem lookup_mem_keys (n c : Nat) (m : DofMap) (h : m.lookup n = some c) : n ∈ m.keys := by
  induction m with
  | nil => simp [DofMap.lookup] at h
  | cons e rest ih =>
    obtain ⟨k, v⟩ := e
    by_cases hk : k = n
    · simp [DofMap.keys, hk]
    · simp only [DofMap.lookup, hk, if_false] at h
      have := ih h
      simp only [DofMap.keys, List.map_cons, List.mem_cons] at this ⊢
      exact Or.inr this

theorem totalBelow_cons (n : Nat) (k v : Nat) (rest : DofMap) :
    DofMap.totalBelow n ((k, v) :: rest) =
      (if k < n then v else 0) + DofMap.totalBelow n rest := by
  unfold DofMap.totalBelow
  by_cases h : k < n
  · simp [List.filter_cons, h]
  · simp [List.filter_cons, h]

theorem total_cons (k v : Nat) (rest : DofMap) :
    DofMap.total ((k, v) :: rest) = v + DofMap.total rest := by
  simp [DofMap.total]

theorem totalBelow_le_total (n : Nat) (m : DofMap) : m.totalBelow n ≤ m.total := by
  induction m with
  | nil => simp [DofMap.totalBelow, DofMap.total]
  | cons e rest ih =>
    obtain ⟨k, v⟩ := e
    rw [totalBelow_cons, total_cons]
    split_ifs <;> omega

/-- In a table in ascending key order, the counts below a key and the count of
the key itself are part of the counts below every larger node ID. -/
theorem totalBelow_add_le_totalBelow (a b ca : Nat) (m : DofMap) (hord : m.Ordered)
    (ha : m.lookup a = some ca) (hab : a < b) : m.totalBelow a + ca ≤ m.totalBelow b := by
  induction m with
  | nil => simp [DofMap.lookup] at ha
  | cons e rest ih =>
    obtain ⟨k, v⟩ := e
    have hc := (ordered_cons_iff (k, v) rest).mp hord
    rw [totalBelow_cons, totalBelow_cons]
    by_cases hk : k = a
    · subst hk
      simp only [DofMap.lookup, if_true] at ha
      injection ha with ha
      subst ha
      have h0 : DofMap.totalBelow k rest = 0 := by
        unfold DofMap.totalBelow
        have : rest.filter (fun e => decide (e.1 < k)) = [] := by
          rw [List.filter_eq_nil_iff]
          intro x hx
          have := hc.1 x.1 (List.mem_map.mpr ⟨x, hx, rfl⟩)
          simp only [decide_eq_true_eq]
          omega
        simp [this]
      simp only [lt_irrefl, if_false, hab, if_true, h0]
      omega
    · simp only [DofMap.lookup, hk, if_false] at ha
      have hka : k < a := hc.1 a (lookup_mem_keys a ca rest ha)
      have hkb : k < b := by omega
      have := ih hc.2 ha
      simp only [hka, hkb, if_true]
      omega

theorem totalBelow_add_le_total (n c : Nat) (m : DofMap) (hord : m.Ordered)
    (h : m.lookup n = some c) : m.totalBelow n + c ≤ m.total := by
  induction m with
  | nil => simp [DofMap.lookup] at h
  | cons e rest ih =>
    obtain ⟨k, v⟩ := e
    have hc := (ordered_cons_iff (k, v) rest).mp hord
    rw [totalBelow_cons, total_cons]
    by_cases hk : k = n
    · subst hk
      simp only [DofMap.lookup, if_true] at h
      injection h with h
      subst h
      have := totalBelow_le_total k rest
      have h0 : DofMap.totalBelow k rest = 0 := by
        unfold DofMap.totalBelow
        have : rest.filter (fun e => decide (e.1 < k)) = [] := by
          rw [List.filter_eq_nil_iff]
          intro x hx
          have := hc.1 x.1 (List.mem_map.mpr ⟨x, hx, rfl⟩)
          simp only [decide_eq_true_eq]
          omega
        simp [this]
      simp only [lt_irrefl, if_false, h0]
      omega
    · simp only [DofMap.lookup, hk, if_false] at h
      have hkn : k < n := hc.1 n (lookup_mem_keys n c rest h)
      have := ih hc.2 h
      simp only [hkn, if_true]
      omega

theorem dofs_before_eq_totalBelow (n : Nat) (m : DofMap) (hord : m.Ordered) (hkey : n ∈ m.keys)
    (hsum : m.total < SIZE_MOD) : dofs_before n m = m.totalBelow n := by
  have hpos : 0 < SIZE_MOD := by unfold SIZE_MOD; positivity
  unfold dofs_before
  rw [dofs_before_loop_eq n m 0 hpos, takeWhile_eq_filter_of_key n m hord hkey, Nat.zero_add]
  exact Nat.mod_eq_of_lt (lt_of_le_of_lt (totalBelow_le_total n m) hsum)

theorem globalIndex_eq (x d : Nat) (hd : 1 ≤ d) (hlt : x + d < SIZE_MOD) :
    globalIndex x d = x + d - 1 := by
  unfold globalIndex
  unfold SIZE_MOD at hlt ⊢
  omega

/-- Claim C19, refuted as stated. In the table built from `wrapFile` the DOF
counts sum to `2 ^ 64 + 1`, the dimension of the matrix is 1 and the global
index of node 2, local DOF 1, is `2 ^ 64 - 1`: it is not inside the matrix. -/
theorem wrapped_index_outside :
    build_dofmap wrapFile = .ok wrapTable ∧ wrapTable.Ordered ∧
      wrapTable.lookup 2 = some 2 ∧ totalDofs wrapTable = .ok 1 ∧
      globalIndex (dofs_before 2 wrapTable) 1 = 18446744073709551615 ∧
      ¬ globalIndex (dofs_before 2 wrapTable) 1 < 1 := by
  refine ⟨by decide, by decide, by decide, by decide, by decide, by decide⟩

/-- Claim C19, amended. For a table in ascending key order whose DOF counts sum
to less than `2 ^ 64`, a key `n` with count `c` and a local DOF number `d` with
`1 ≤ d ≤ c`: the `size_t` expression `dofs_before(n) + d - 1` neither
underflows nor overflows, and its value is strictly smaller than the sum of
all DOF counts, which is the dimension of the matrix. -/
theorem global_index_in_range (table : DofMap) (n c d : Nat) (hord : table.Ordered)
    (hkey : table.lookup n = some c) (hd1 : 1 ≤ d) (hd2 : d ≤ c)
    (hsum : table.total < SIZE_MOD) :
    1 ≤ dofs_before n table + d ∧ dofs_before n table + d < SIZE_MOD ∧
      globalIndex (dofs_before n table) d = dofs_before n table + d - 1 ∧
      globalIndex (dofs_before n table) d < table.total ∧
      totalDofs table = .ok table.total := by
  have hb := dofs_before_eq_totalBelow n table hord (lookup_mem_keys n c table hkey) hsum
  have hle := totalBelow_add_le_total n c table hord hkey
  have hlt : dofs_before n table + d < SIZE_MOD := by rw [hb]; omega
  have hg := globalIndex_eq (dofs_before n table) d hd1 hlt
  refine ⟨by omega, hlt, hg, by rw [hg, hb]; omega, ?_⟩
  obtain ⟨last, hlast⟩ : ∃ last, table.getLast? = some last := by
    cases hgl : table.getLast? with
    | none =>
      rw [List.getLast?_eq_none_iff.mp hgl] at hkey
      simp [DofMap.lookup] at hkey
    | some last => exact ⟨last, rfl⟩
  obtain ⟨ht1, ht2⟩ := totalDofs_eq table hord last hlast
  rw [ht1, ht2, Nat.mod_eq_of_lt hsum]

theorem global_index_in_range_witness :
    globalIndex (dofs_before 547 [(82, 1), (546, 3), (547, 2)]) 2 = 5 ∧
      globalIndex (dofs_before 547 [(82, 1), (546, 3), (547, 2)]) 2 <
        DofMap.total [(82, 1), (546, 3), (547, 2)] :=
  ⟨by decide,
    (global_index_in_range [(82, 1), (546, 3), (547, 2)] 547 2 2 (by decide) (by decide)
      (by decide) (by decide) (by decide)).2.2.2.1⟩

/-- Claim C20, refuted as stated. In a table of positive DOF counts whose sum
is `2 ^ 64 + 1`, the pairs (node 1, local DOF 1) and (node 3, local DOF 1)
have the same global index 0, and `dofs_before(2) + table[2]` exceeds
`dofs_before(3)`. -/
theorem wrapped_index_collision :
    wrapTable3.Ordered ∧ (∀ e ∈ wrapTable3, 1 ≤ e.2) ∧
      wrapTable3.lookup 1 = some 18446744073709551615 ∧ wrapTable3.lookup 2 = some 1 ∧
      wrapTable3.lookup 3 = some 1 ∧
      globalIndex (dofs_before 1 wrapTable3) 1 = 0 ∧
      globalIndex (dofs_before 3 wrapTable3) 1 = 0 ∧
      ¬ dofs_before 2 wrapTable3 + 1 ≤ dofs_before 3 wrapTable3 := by
  refine ⟨by decide, by decide, by decide, by decide, by decide, by decide, by decide, by decide⟩

/-- Claim C20, amended. For a table in ascending key order whose DOF counts sum
to less than `2 ^ 64`: for keys `a < b`, `dofs_before(a) + table[a] ≤
dofs_before(b)`, and the global index `dofs_before(n) + d - 1` is injective on
the pairs of a key `n` and a local DOF number `d` with `1 ≤ d ≤ table[n]`. -/
theorem global_index_injective (table : DofMap) (hord : table.Ordered)
    (hsum : table.total < SIZE_MOD) :
    (∀ a b ca cb : Nat, table.lookup a = some ca → table.lookup b = some cb → a < b →
      dofs_before a table + ca ≤ dofs_before b table) ∧
      ∀ n1 d1 c1 n2 d2 c2 : Nat, table.lookup n1 = some c1 → 1 ≤ d1 → d1 ≤ c1 →
        table.lookup n2 = some c2 → 1 ≤ d2 → d2 ≤ c2 →
        globalIndex (dofs_before n1 table) d1 = globalIndex (dofs_before n2 table) d2 →
        n1 = n2 ∧ d1 = d2 := by
  have hmono : ∀ a b ca cb : Nat, table.lookup a = some ca → table.lookup b = some cb → a < b →
      dofs_before a table + ca ≤ dofs_before b table := by
    intro a b ca cb ha hb hab
    rw [dofs_before_eq_totalBelow a table hord (lookup_mem_keys a ca table ha) hsum,
      dofs_before_eq_totalBelow b table hord (lookup_mem_keys b cb table hb) hsum]
    exact totalBelow_add_le_totalBelow a b ca table hord ha hab
  refine ⟨hmono, ?_⟩
  intro n1 d1 c1 n2 d2 c2 h1 hd1 hd1c h2 hd2 hd2c heq
  have hb1 := dofs_before_eq_totalBelow n1 table hord (lookup_mem_keys n1 c1 table h1) hsum
  have hb2 := dofs_before_eq_totalBelow n2 table hord (lookup_mem_keys n2 c2 table h2) hsum
  have hle1 := totalBelow_add_le_total n1 c1 table hord h1
  have hle2 := totalBelow_add_le_total n2 c2 table hord h2
  rw [globalIndex_eq _ d1 hd1 (by rw [hb1]; omega), globalIndex_eq _ d2 hd2 (by rw [hb2]; omega)]
    at heq
  rcases Nat.lt_trichotomy n1 n2 with hlt | heq12 | hgt
  · have := hmono n1 n2 c1 c2 h1 h2 hlt
    omega
  · subst heq12
    exact ⟨rfl, by omega⟩
  · have := hmono n2 n1 c2 c1 h2 h1 hgt
    omega

theorem global_index_injective_witness :
    dofs_before 82 [(82, 1), (546, 3), (547, 2)] + 1 ≤
        dofs_before 546 [(82, 1), (546, 3), (547, 2)] ∧
      dofs_before 546 [(82, 1), (546, 3), (547, 2)] + 3 ≤
        dofs_before 547 [(82, 1), (546, 3), (547, 2)] :=
  ⟨(global_index_injective [(82, 1), (546, 3), (547, 2)] (by decide) (by decide)).1 82 546 1 3
      (by decide) (by decide) (by decide),
    (global_index_injective [(82, 1), (546, 3), (547, 2)] (by decide) (by decide)).1 546 547 3 2
      (by decide) (by decide) (by decide)⟩

/-! ### Lines of a file made of two parts -/

theorem phase2_step_bare (dofmap : DofMap) (lineRaw : Str) (hb : isBareDMIG lineRaw = true) :
    phase2_step dofmap lineRaw = .ok (.done dofmap) := by
  unfold isBareDMIG at hb
  unfold phase2_step
  simp only [decide_eq_true_eq] at hb
  simp only [hb, if_true]

theorem phase2_stop (B : List Str) (h : Str) (Y1 Y2 : List Str) (dofmap : DofMap)
    (hb : isBareDMIG h = true) :
    phase2 (B ++ h :: Y1) dofmap = phase2 (B ++ h :: Y2) dofmap := by
  induction B generalizing dofmap with
  | nil => simp [phase2, phase2_step_bare dofmap h hb]
  | cons b B ih =>
    simp only [List.cons_append, phase2]
    cases phase2_step dofmap b with
    | error e => rfl
    | ok r =>
      cases r with
      | next d => exact ih d
      | done d => rfl

theorem phase1_step_of_bare (dofmap : DofMap) (lineRaw : Str) (r : Loop Build)
    (hb : isBareDMIG lineRaw = true) (h : phase1_step dofmap lineRaw = .ok r) :
    ∃ hint, r = .done ⟨dofmap, hint⟩ := by
  rcases phase1_step_cases dofmap lineRaw r h with ⟨-, hr⟩ | ⟨hb1, -⟩ | ⟨hb1, -⟩
  · exact hr
  · rw [hb] at hb1
    cases hb1
  · rw [hb] at hb1
    cases hb1

/-- Both loops of `build_dofmap`, from any table: the lines after the second
bare `DMIG` line are not read. -/
theorem build_two_bare (A B : List Str) (h1 h2 : Str) (X1 X2 : List Str) (dofmap : DofMap)
    (hb1 : isBareDMIG h1 = true) (hb2 : isBareDMIG h2 = true) :
    (match phase1 (A ++ h1 :: (B ++ h2 :: X1)) dofmap with
      | .error e => Except.error e
      | .ok (b, rest) => phase2 rest b.dofmap) =
    (match phase1 (A ++ h1 :: (B ++ h2 :: X2)) dofmap with
      | .error e => Except.error e
      | .ok (b, rest) => phase2 rest b.dofmap) := by
  induction A generalizing dofmap with
  | nil =>
    simp only [List.nil_append, phase1]
    cases hs : phase1_step dofmap h1 with
    | error e => rfl
    | ok r =>
      obtain ⟨hint, hr⟩ := phase1_step_of_bare dofmap h1 r hb1 hs
      subst hr
      exact phase2_stop B h2 X1 X2 dofmap hb2
  | cons a A ih =>
    simp only [List.cons_append, phase1]
    cases hs : phase1_step dofmap a with
    | error e => rfl
    | ok r =>
      cases r with
      | next b => exact ih b.dofmap
      | done b => exact phase2_stop A h1 (B ++ h2 :: X1) (B ++ h2 :: X2) b.dofmap hb1

/-- Claim C17. The table built by `build_dofmap` depends only on the lines up to
the second bare `DMIG` line: two files whose lines agree up to and including
their second bare `DMIG` line give the same result of `build_dofmap` whatever
lines follow it; and in the second loop a line whose first token is `SPOINT`
leaves the table as it is. -/
theorem build_dofmap_reads_two_bare (pch1 pch2 : String) (A B X1 X2 : List Str) (h1 h2 : Str)
    (hp1 : getlines pch1.data = A ++ h1 :: (B ++ h2 :: X1))
    (hp2 : getlines pch2.data = A ++ h1 :: (B ++ h2 :: X2))
    (hb1 : isBareDMIG h1 = true) (hb2 : isBareDMIG h2 = true) :
    build_dofmap pch1 = build_dofmap pch2 ∧
      ∀ (dofmap : DofMap) (l : Str), extract (tokens l) 0 [] = "SPOINT".toList →
        phase2_step dofmap l = .ok (.next dofmap) := by
  constructor
  · unfold build_dofmap build_lines
    rw [hp1, hp2]
    exact build_two_bare A B h1 h2 X1 X2 [] hb1 hb2
  · intro dofmap l hl
    unfold phase2_step
    simp only [hl]
    rw [if_neg (by decide), if_pos (by decide)]

theorem build_dofmap_reads_two_bare_witness :
    build_dofmap "SPOINT 82\nDMIG KAAX 0 6 1 0 6\nDMIG* KAAX 546 3\nSPOINT 9\nDMIG\nDMIG* KAAX 7 x\n"
      = build_dofmap "SPOINT 82\nDMIG KAAX 0 6 1 0 6\nDMIG* KAAX 546 3\nSPOINT 9\nDMIG" :=
  (build_dofmap_reads_two_bare
    "SPOINT 82\nDMIG KAAX 0 6 1 0 6\nDMIG* KAAX 546 3\nSPOINT 9\nDMIG\nDMIG* KAAX 7 x\n"
    "SPOINT 82\nDMIG KAAX 0 6 1 0 6\nDMIG* KAAX 546 3\nSPOINT 9\nDMIG"
    ["SPOINT 82".toList] ["DMIG* KAAX 546 3".toList, "SPOINT 9".toList]
    ["DMIG* KAAX 7 x".toList] []
    "DMIG KAAX 0 6 1 0 6".toList "DMIG".toList (by decide) (by decide) (by decide)
    (by decide)).1

/-! ### The declared total does not influence the result -/

theorem lookup_eq_none_iff (n : Nat) (m : DofMap) : m.lookup n = none ↔ n ∉ m.keys := by
  induction m with
  | nil => simp [DofMap.lookup, DofMap.keys]
  | cons e rest ih =>
    obtain ⟨k, v⟩ := e
    by_cases hk : k = n
    · simp [DofMap.lookup, DofMap.keys, hk]
    · have hnk : ¬ n = k := fun h => hk h.symm
      simp only [DofMap.keys] at ih
      simp [DofMap.lookup, DofMap.keys, hk, hnk, ih]

theorem lookup_insert (n k v : Nat) (m : DofMap) (hord : m.Ordered) :
    (m.insert k v).lookup n =
      match m.lookup n with
      | some w => some w
      | none => if n = k then some v else none := by
  by_cases hn : n = k
  · subst hn
    cases hl : m.lookup n with
    | none =>
      rw [lookup_insert_self n v m ((lookup_eq_none_iff n m).mp hl)]
      simp
    | some w =>
      rw [insert_of_key n v m hord (lookup_mem_keys n w m hl), hl]
  · rw [lookup_insert_other k v n m hn]
    cases m.lookup n with
    | none => simp [hn]
    | some w => rfl

/-- The table after the first loop: the nodes it had, and with DOF count 1 the
nodes of the `SPOINT` lines before the first bare `DMIG` line. -/
theorem phase1_lookup (ls : List Str) (dofmap : DofMap) (b : Build) (rest : List Str) (n : Nat)
    (hord : dofmap.Ordered) (h : phase1 ls dofmap = .ok (b, rest)) :
    b.dofmap.lookup n =
      match dofmap.lookup n with
      | some w => some w
      | none => if n ∈ (phase1Lines ls).filterMap spoint? then some 1 else none := by
  induction ls generalizing dofmap with
  | nil =>
    simp only [phase1] at h
    injection h with h
    injection h with h1 h2
    rw [← h1]
    cases dofmap.lookup n with
    | none => simp [phase1Lines]
    | some w => rfl
  | cons l ls ih =>
    simp only [phase1] at h
    cases hs : phase1_step dofmap l with
    | error e => simp [hs] at h
    | ok r =>
      rcases phase1_step_cases dofmap l r hs with ⟨hb, hint, hr⟩ | ⟨hb, ha, hr⟩ | ⟨hb, k, ha, hr⟩
      · subst hr
        simp only [hs] at h
        injection h with h
        injection h with h1 h2
        rw [← h1]
        cases dofmap.lookup n with
        | none => simp [phase1Lines, List.takeWhile_cons, hb]
        | some w => rfl
      · subst hr
        simp only [hs] at h
        rw [ih dofmap hord h]
        simp only [phase1Lines, List.takeWhile_cons, hb, Bool.not_false, if_true,
          List.filterMap_cons, ha]
      · subst hr
        simp only [hs] at h
        rw [ih _ (insert_ordered k 1 dofmap hord) h, lookup_insert n k 1 dofmap hord]
        simp only [phase1Lines, List.takeWhile_cons, hb, Bool.not_false, if_true,
          List.filterMap_cons, ha, List.mem_cons]
        cases dofmap.lookup n with
        | some w => rfl
        | none =>
          by_cases hn : n = k
          · simp [hn]
          · simp [hn]

/-- The DOF count of a node in the table returned by `build_dofmap`: the
local-DOF number of its last record of phase 2, or 1 when the node has no such
record and an `SPOINT` line of phase 1 registers it. -/
theorem build_lines_lookup (ls : List Str) (table : DofMap) (n : Nat)
    (h : build_lines ls = .ok table) :
    table.lookup n =
      match lastAssignment n (phase2Lines ls) with
      | some w => some w
      | none => if n ∈ (phase1Lines ls).filterMap spoint? then some 1 else none := by
  unfold build_lines at h
  cases h1 : phase1 ls [] with
  | error e => simp [h1] at h
  | ok r =>
    obtain ⟨b, rest⟩ := r
    simp only [h1] at h
    have hrest := phase1_rest _ _ b rest h1
    have h2 := phase2_lookup rest b.dofmap table n h
    rw [hrest] at h2
    rw [h2, phase1_lookup ls [] b rest n (by simp [DofMap.Ordered]) h1]
    rfl

theorem lookup_none_of_le (k v n : Nat) (rest : DofMap) (hord : DofMap.Ordered ((k, v) :: rest))
    (hn : n ≤ k) : DofMap.lookup n rest = none := by
  rw [lookup_eq_none_iff]
  intro hmem
  have := ((ordered_cons_iff (k, v) rest).mp hord).1 n hmem
  simp only at this
  omega

/-- Two tables in ascending key order that hold the same DOF count for every
node are the same table. -/
theorem table_ext (t1 t2 : DofMap) (h1 : t1.Ordered) (h2 : t2.Ordered)
    (h : ∀ n, t1.lookup n = t2.lookup n) : t1 = t2 := by
  induction t1 generalizing t2 with
  | nil =>
    cases t2 with
    | nil => rfl
    | cons e r =>
      have := h e.1
      simp [DofMap.lookup] at this
  | cons e1 r1 ih =>
    obtain ⟨k1, v1⟩ := e1
    cases t2 with
    | nil =>
      have := h k1
      simp [DofMap.lookup] at this
    | cons e2 r2 =>
      obtain ⟨k2, v2⟩ := e2
      have hk : k1 = k2 := by
        rcases Nat.lt_trichotomy k1 k2 with hlt | heq | hgt
        · have := h k1
          have hne : ¬ k2 = k1 := by omega
          rw [show DofMap.lookup k1 ((k1, v1) :: r1) = some v1 by simp [DofMap.lookup]] at this
          simp only [DofMap.lookup, hne, if_false] at this
          rw [lookup_none_of_le k2 v2 k1 r2 h2 (by omega)] at this
          cases this
        · exact heq
        · have := h k2
          have hne : ¬ k1 = k2 := by omega
          rw [show DofMap.lookup k2 ((k2, v2) :: r2) = some v2 by simp [DofMap.lookup]] at this
          simp only [DofMap.lookup, hne, if_false] at this
          rw [lookup_none_of_le k1 v1 k2 r1 h1 (by omega)] at this
          cases this
      subst hk
      have hv : v1 = v2 := by
        have := h k1
        simp only [DofMap.lookup, if_true] at this
        injection this
      subst hv
      have hr : r1 = r2 := by
        apply ih r2 ((ordered_cons_iff _ _).mp h1).2 ((ordered_cons_iff _ _).mp h2).2
        intro n
        by_cases hn : k1 = n
        · subst hn
          rw [lookup_none_of_le k1 v1 k1 r1 h1 (le_refl _),
            lookup_none_of_le k1 v1 k1 r2 h2 (le_refl _)]
        · have := h n
          simpa only [DofMap.lookup, hn, if_false] using this
      rw [hr]

theorem keys_sorted (m : DofMap) (hord : m.Ordered) :
    m.keys.Pairwise (fun a b => a < b) ∧ m.keys.Nodup := by
  have h1 : m.keys.Pairwise (fun a b => a < b) := by
    unfold DofMap.keys
    rw [List.pairwise_map]
    exact hord
  exact ⟨h1, h1.imp (fun hab => Nat.ne_of_lt hab)⟩

/-- Claim C15. The table returned by `build_dofmap` is in strictly ascending
node-ID order and holds each node ID once; and two files whose records of
phase 1 (the `SPOINT` lines before the first bare `DMIG` line) and of phase 2
(the `DMIG*` records up to the next bare `DMIG` line) differ only by a
reordering that keeps, for each node, the records of that node in the same
relative order, give the same table and the same `dofs_before` for every node. -/
theorem build_dofmap_order_independent (pch1 pch2 : String) (t1 t2 : DofMap)
    (h1 : build_dofmap pch1 = .ok t1) (h2 : build_dofmap pch2 = .ok t2) :
    (t1.keys.Pairwise (fun a b => a < b) ∧ t1.keys.Nodup) ∧
      ((∀ n : Nat,
          ((phase1Lines (getlines pch1.data)).filterMap spoint?).filter (fun k => decide (k = n)) =
          ((phase1Lines (getlines pch2.data)).filterMap spoint?).filter (fun k => decide (k = n))) →
        (∀ n : Nat,
          ((phase2Lines (getlines pch1.data)).filterMap assignment?).filter
              (fun e => decide (e.1 = n)) =
          ((phase2Lines (getlines pch2.data)).filterMap assignment?).filter
              (fun e => decide (e.1 = n))) →
        t1 = t2 ∧ ∀ n : Nat, dofs_before n t1 = dofs_before n t2) := by
  have ho1 := build_dofmap_ordered pch1 t1 h1
  have ho2 := build_dofmap_ordered pch2 t2 h2
  refine ⟨keys_sorted t1 ho1, ?_⟩
  intro hS hA
  have heq : t1 = t2 := by
    apply table_ext t1 t2 ho1 ho2
    intro n
    rw [build_lines_lookup _ t1 n h1, build_lines_lookup _ t2 n h2]
    have hlast : lastAssignment n (phase2Lines (getlines pch1.data)) =
        lastAssignment n (phase2Lines (getlines pch2.data)) := by
      unfold lastAssignment
      rw [hA n]
    have hmem : n ∈ (phase1Lines (getlines pch1.data)).filterMap spoint? ↔
        n ∈ (phase1Lines (getlines pch2.data)).filterMap spoint? := by
      have e1 : ∀ S : List Nat, n ∈ S ↔ n ∈ S.filter (fun k => decide (k = n)) := by
        intro S
        simp [List.mem_filter]
      rw [e1, hS n, ← e1]
    rw [hlast]
    simp only [hmem]
  exact ⟨heq, fun n => by rw [heq]⟩

theorem build_dofmap_order_independent_witness :
    (DofMap.keys [(5, 1), (7, 3), (82, 1), (546, 2)]).Nodup ∧
      build_dofmap orderFile1 = build_dofmap orderFile2 := by
  have h1 : build_dofmap orderFile1 = .ok [(5, 1), (7, 3), (82, 1), (546, 2)] := by decide
  have h2 : build_dofmap orderFile2 = .ok [(5, 1), (7, 3), (82, 1), (546, 2)] := by decide
  have hs1 : (phase1Lines (getlines orderFile1.data)).filterMap spoint? = [82, 5] := by decide
  have hs2 : (phase1Lines (getlines orderFile2.data)).filterMap spoint? = [5, 82] := by decide
  have ha1 : (phase2Lines (getlines orderFile1.data)).filterMap assignment? =
      [(546, 1), (7, 3), (546, 2)] := by decide
  have ha2 : (phase2Lines (getlines orderFile2.data)).filterMap assignment? =
      [(7, 3), (546, 1), (546, 2)] := by decide
  have h := build_dofmap_order_independent orderFile1 orderFile2 _ _ h1 h2
  have heq := h.2
    (by
      intro n
      rw [hs1, hs2]
      by_cases e1 : 82 = n
      · subst e1
        decide
      · by_cases e2 : 5 = n
        · subst e2
          decide
        · simp [List.filter_cons, e1, e2])
    (by
      intro n
      rw [ha1, ha2]
      by_cases e1 : 546 = n
      · subst e1
        decide
      · by_cases e2 : 7 = n
        · subst e2
          decide
        · simp [List.filter_cons, e1, e2])
  exact ⟨h.1.2, by rw [h1, h2]⟩

/-! ### The entries of the matrix: the last record wins -/

theorem read_step_record_cases (userType : Str) (dofmap : DofMap) (st st1 : Scan) (lineRaw : Str)
    (h : read_step userType dofmap st lineRaw = .ok st1) :
    (processedRecord dofmap st lineRaw = none ∧ st1.sysMatrix = st.sysMatrix) ∨
      ∃ (gc : Nat) (v : Double) (m1 : Matrix),
        processedRecord dofmap st lineRaw = some (st.globalRow, gc, v) ∧
        st.sysMatrix.set st.globalRow gc v = .ok m1 ∧
        m1.set gc st.globalRow v = .ok st1.sysMatrix := by
  unfold read_step at h
  simp only at h
  unfold processedRecord
  split_ifs at h with h1 h2 h3
  · left
    injection h with h
    refine ⟨?_, by rw [← h]⟩
    rw [if_neg]
    rw [h1]
    intro hc
    exact absurd hc.1 (by decide)
  · left
    cases hs : stoi (extract (tokens lineRaw) 2 st.nodeIDStr) with
    | error e => simp [hs] at h
    | ok nodeID =>
      cases hs2 : stoi (extract (tokens lineRaw) 3 st.nodeDofStr) with
      | error e => simp [hs, hs2] at h
      | ok nodeDof =>
        simp only [hs, hs2] at h
        injection h with h
        refine ⟨?_, by rw [← h]⟩
        rw [if_neg]
        rw [h1]
        intro hc
        exact absurd hc.1 (by decide)
  · right
    cases hs : stoi (extract (tokens lineRaw) 1 st.nodeIDStr) with
    | error e => simp [hs] at h
    | ok nodeID =>
      cases hs2 : stoi (extract (tokens lineRaw) 2 st.nodeDofStr) with
      | error e => simp [hs, hs2] at h
      | ok nodeDof =>
        cases hs3 : stod (replaceD (extract (tokens lineRaw) 3 [])) with
        | error e => simp [hs, hs2, hs3] at h
        | ok v =>
          simp only [hs, hs2, hs3] at h
          cases hm1 : st.sysMatrix.set st.globalRow
              (globalIndex (dofs_before (toSizeT nodeID) dofmap) (toSizeT nodeDof)) v with
          | error e => simp [hm1] at h
          | ok m1 =>
            simp only [hm1] at h
            cases hm2 : m1.set (globalIndex (dofs_before (toSizeT nodeID) dofmap)
                (toSizeT nodeDof)) st.globalRow v with
            | error e => simp [hm2] at h
            | ok m2 =>
              simp only [hm2] at h
              injection h with h
              refine ⟨_, v, m1, ?_, hm1, ?_⟩
              · rw [if_pos h3]
              · rw [← h]
                exact hm2
  · left
    injection h with h
    refine ⟨?_, by rw [← h]⟩
    rw [if_neg h3]

theorem lastValue_nil (d : Double) (r c : Nat) : lastValue d [] r c = d := rfl

theorem lastValue_cons (d : Double) (t : Nat × Nat × Double) (recs : List (Nat × Nat × Double))
    (r c : Nat) :
    lastValue d (t :: recs) r c = lastValue (if addresses r c t then t.2.2 else d) recs r c := by
  unfold lastValue
  by_cases ha : addresses r c t = true
  · simp only [List.filter_cons, ha, if_true]
    rw [List.getLast?_cons]
    cases (List.filter (addresses r c) recs).getLast? with
    | none => rfl
    | some w => rfl
  · simp only [List.filter_cons, ha, Bool.false_eq_true, if_false]

/-- The entries of the matrix after the loop: for each pair the value of the
last processed record that addresses it, and the entry before the loop when
no record addresses it. -/
theorem read_loop_entries (userType : Str) (dofmap : DofMap) (ls : List Str) (st st1 : Scan)
    (h : read_loop userType dofmap ls st = .ok st1) (r c : Nat) :
    st1.sysMatrix.coeff r c =
      lastValue (st.sysMatrix.coeff r c) (processedRecords userType dofmap ls st) r c := by
  induction ls generalizing st with
  | nil =>
    simp only [read_loop] at h
    injection h with h
    rw [← h]
    rfl
  | cons l ls ih =>
    simp only [read_loop] at h
    cases hs : read_step userType dofmap st l with
    | error e => simp [hs] at h
    | ok st2 =>
      simp only [hs] at h
      rw [ih st2 h]
      simp only [processedRecords, hs]
      rcases read_step_record_cases userType dofmap st st2 l hs with
        ⟨hnone, hm⟩ | ⟨gc, v, m1, hsome, hm1, hm2⟩
      · simp only [hnone, hm]
      · simp only [hsome]
        rw [lastValue_cons]
        obtain ⟨-, -, e1⟩ := Matrix.set_ok _ _ _ _ _ hm1
        obtain ⟨-, -, e2⟩ := Matrix.set_ok _ _ _ _ _ hm2
        have hco : st2.sysMatrix.coeff r c =
            if addresses r c (st.globalRow, gc, v) then v else st.sysMatrix.coeff r c := by
          rw [e2, e1]
          unfold addresses
          simp only
          by_cases h3 : r = gc ∧ c = st.globalRow
          · have : (st.globalRow = r ∧ gc = c) ∨ (st.globalRow = c ∧ gc = r) :=
              Or.inr ⟨h3.2.symm, h3.1.symm⟩
            simp [h3, this]
          · by_cases h4 : r = st.globalRow ∧ c = gc
            · have : (st.globalRow = r ∧ gc = c) ∨ (st.globalRow = c ∧ gc = r) :=
                Or.inl ⟨h4.1.symm, h4.2.symm⟩
              simp [h3, h4, this]
            · have : ¬ ((st.globalRow = r ∧ gc = c) ∨ (st.globalRow = c ∧ gc = r)) := by
                rintro (h5 | h5)
                · exact h4 ⟨h5.1.symm, h5.2.symm⟩
                · exact h3 ⟨h5.2.symm, h5.1.symm⟩
              simp [h3, h4, this]
        rw [hco]

theorem read_step_keeps_row (userType : Str) (dofmap : DofMap) (st st1 : Scan) (lineRaw : Str)
    (hl : extract (tokens lineRaw) 0 [] ≠ "DMIG*".toList)
    (h : read_step userType dofmap st lineRaw = .ok st1) :
    st1.doProcess = st.doProcess ∧ st1.globalRow = st.globalRow := by
  unfold read_step at h
  simp only [hl, if_false] at h
  split_ifs at h with h3
  · cases hs : stoi (extract (tokens lineRaw) 1 st.nodeIDStr) with
    | error e => simp [hs] at h
    | ok nodeID =>
      cases hs2 : stoi (extract (tokens lineRaw) 2 st.nodeDofStr) with
      | error e => simp [hs, hs2] at h
      | ok nodeDof =>
        cases hs3 : stod (replaceD (extract (tokens lineRaw) 3 [])) with
        | error e => simp [hs, hs2, hs3] at h
        | ok v =>
          simp only [hs, hs2, hs3] at h
          cases hm1 : st.sysMatrix.set st.globalRow
              (globalIndex (dofs_before (toSizeT nodeID) dofmap) (toSizeT nodeDof)) v with
          | error e => simp [hm1] at h
          | ok m1 =>
            simp only [hm1] at h
            cases hm2 : m1.set (globalIndex (dofs_before (toSizeT nodeID) dofmap)
                (toSizeT nodeDof)) st.globalRow v with
            | error e => simp [hm2] at h
            | ok m2 =>
              simp only [hm2] at h
              injection h with h
              rw [← h]
              exact ⟨h3.2.symm, rfl⟩
  · injection h with h
    rw [← h]
    exact ⟨rfl, rfl⟩

theorem read_step_other_type (userType : Str) (dofmap : DofMap) (st : Scan) (lineRaw : Str)
    (ty : Str) (more : List Str) (hline : tokens lineRaw = "DMIG*".toList :: ty :: more)
    (hty : ty ≠ userType) :
    ∃ st1 : Scan, read_step userType dofmap st lineRaw = .ok st1 ∧ st1.doProcess = false ∧
      st1.sysMatrix = st.sysMatrix := by
  refine ⟨⟨ty, extract (tokens lineRaw) 2 st.nodeIDStr, extract (tokens lineRaw) 3 st.nodeDofStr,
    st.globalRow, false, st.sysMatrix⟩, ?_, rfl, rfl⟩
  unfold read_step
  simp [hline, extract, hty]

/-- Claim C13. Each entry `(r, c)` of a matrix returned by `read_matrix` equals
the value of the last processed record, in file order, whose global row and
column are `(r, c)` or `(c, r)`, and `0.0` when no processed record addresses
the pair. The processed records are the `*` lines read in the state
ROW_ACTIVE; the global column of a record is
`dofs_before(colNode) + colLocalDof - 1` and its global row is the one of the
state: a `DMIG*` header of the requested type sets it to
`dofs_before(rowNode) + rowLocalDof - 1` and makes the state ROW_ACTIVE, a
header of another type makes the state IDLE, and every other line keeps both. -/
theorem read_matrix_entries (pch : String) (matrixType : MATRIX) (M : Matrix)
    (hM : read_matrix pch matrixType = .ok M) :
    ∃ (table : DofMap) (numDofs : Nat), build_dofmap pch = .ok table ∧
      totalDofs table = .ok numDofs ∧
      (∀ r c : Nat, r < M.rows → c < M.cols →
        M.get? r c = some (lastValue Double.zero
          (processedRecords (userMatrixType matrixType) table (getlines_eof pch.data)
            (Scan.init numDofs)) r c)) ∧
      (∀ (st : Scan) (lineRaw nodeIDStr nodeDofStr : Str) (more : List Str) (nodeID nodeDof : Int),
        tokens lineRaw =
          "DMIG*".toList :: userMatrixType matrixType :: nodeIDStr :: nodeDofStr :: more →
        stoi nodeIDStr = .ok nodeID → stoi nodeDofStr = .ok nodeDof →
        ∃ st1 : Scan, read_step (userMatrixType matrixType) table st lineRaw = .ok st1 ∧
          st1.doProcess = true ∧
          st1.globalRow = globalIndex (dofs_before (toSizeT nodeID) table) (toSizeT nodeDof)) ∧
      (∀ (st : Scan) (lineRaw ty : Str) (more : List Str),
        tokens lineRaw = "DMIG*".toList :: ty :: more → ty ≠ userMatrixType matrixType →
        ∃ st1 : Scan, read_step (userMatrixType matrixType) table st lineRaw = .ok st1 ∧
          st1.doProcess = false) ∧
      (∀ (st st1 : Scan) (lineRaw : Str), extract (tokens lineRaw) 0 [] ≠ "DMIG*".toList →
        read_step (userMatrixType matrixType) table st lineRaw = .ok st1 →
        st1.doProcess = st.doProcess ∧ st1.globalRow = st.globalRow) := by
  obtain ⟨table, numDofs, st, hb, ht, hl, hst⟩ := read_matrix_ok pch matrixType M hM
  refine ⟨table, numDofs, hb, ht, ?_, ?_, ?_, ?_⟩
  · intro r c hr hc
    have := read_loop_entries _ _ _ _ _ hl r c
    rw [hst] at this
    simp only [Matrix.get?, hr, hc, and_self, if_true, this]
    rfl
  · intro st lineRaw nodeIDStr nodeDofStr more nodeID nodeDof hline hid hdof
    exact ⟨_, read_step_header _ _ st lineRaw nodeIDStr nodeDofStr more nodeID nodeDof hline hid
      hdof, rfl, rfl⟩
  · intro st lineRaw ty more hline hty
    obtain ⟨st1, h1, h2, -⟩ := read_step_other_type _ table st lineRaw ty more hline hty
    exact ⟨st1, h1, h2⟩
  · intro st st1 lineRaw hl1 hs
    exact read_step_keeps_row _ _ st st1 lineRaw hl1 hs

theorem read_matrix_entries_witness :
    ∃ (table : DofMap) (numDofs : Nat), build_dofmap scenarioDeclared = .ok table ∧
      totalDofs table = .ok numDofs ∧
      lastValue Double.zero (processedRecords "KAAX".toList table
        (getlines_eof scenarioDeclared.data) (Scan.init numDofs)) 5 3 = .finite false 5260 := by
  obtain ⟨table, numDofs, hb, ht, hent, -⟩ :=
    read_matrix_entries scenarioDeclared .STIF _ scenarioDeclared_read
  refine ⟨table, numDofs, hb, ht, ?_⟩
  have h := hent 5 3 (by decide) (by decide)
  simp only [Matrix.get?] at h
  rw [if_pos (by decide)] at h
  injection h with h
  rw [show userMatrixType .STIF = "KAAX".toList from rfl] at h
  rw [← h]
  simp

/-! ### Tokens that cannot be converted -/

end PCH
